import Mathlib

/-!
Verification of the PWL editor waveform engine (`pwl_editor.py`).

The Python code stores waveform points as `(time, value)` float tuples.  The
embedding models float values as rationals (exact arithmetic), lists of tuples
as `List (ℚ × ℚ)`, and Python `list.sort` / `sorted` (a stable sort) as
insertion sort over the corresponding order, which is stable in the same
sense.  Fallible operations return `Except` / `Option`.
-/

/-- A waveform point, `(time, value)`, as stored in `PWLEditor.points`. -/
abbrev Point : Type := ℚ × ℚ

/-- `PWLEditor.TIME_MIN_PRECISION = 1e-12`. -/
def TIME_MIN_PRECISION : ℚ := 1 / 10 ^ 12

/-- `PWLEditor.DEFAULT_DRAG_PRECISION = 1e-3`. -/
def DEFAULT_DRAG_PRECISION : ℚ := 1 / 10 ^ 3

/-- Comparison used by Python `points.sort()`: lexicographic order on
`(time, value)` tuples. -/
def tupleLe (p q : Point) : Prop :=
  p.1 < q.1 ∨ (p.1 = q.1 ∧ p.2 ≤ q.2)

instance : DecidableRel tupleLe := fun p q => by
  unfold tupleLe; infer_instance

instance : IsTotal Point tupleLe where
  total p q := by
    unfold tupleLe
    rcases lt_trichotomy p.1 q.1 with h | h | h
    · exact Or.inl (Or.inl h)
    · rcases le_total p.2 q.2 with h2 | h2
      · exact Or.inl (Or.inr ⟨h, h2⟩)
      · exact Or.inr (Or.inr ⟨h.symm, h2⟩)
    · exact Or.inr (Or.inl h)

instance : IsTrans Point tupleLe where
  trans p q r := by
    unfold tupleLe
    rintro (h1 | ⟨h1, h1v⟩) (h2 | ⟨h2, h2v⟩)
    · exact Or.inl (h1.trans h2)
    · exact Or.inl (h2 ▸ h1)
    · exact Or.inl (h1 ▸ h2)
    · exact Or.inr ⟨h1.trans h2, h1v.trans h2v⟩

instance : IsAntisymm Point tupleLe where
  antisymm p q := by
    unfold tupleLe
    rintro (h1 | ⟨h1, h1v⟩) (h2 | ⟨h2, h2v⟩)
    · exact absurd h2 (not_lt.mpr h1.le)
    · exact absurd h1 (not_lt.mpr h2.le)
    · exact absurd h2 (not_lt.mpr h1.le)
    · exact Prod.ext h1 (le_antisymm h1v h2v)

/-- Comparison used by Python `sorted(..., key=lambda x: x[0])`: order by
time only. -/
def timeLe (p q : Point) : Prop := p.1 ≤ q.1

instance : DecidableRel timeLe := fun p q => by
  unfold timeLe; infer_instance

instance : IsTotal Point timeLe where
  total p q := le_total p.1 q.1

instance : IsTrans Point timeLe where
  trans _ _ _ h1 h2 := le_trans h1 h2

/-- Python `points.sort()` (stable, lexicographic on tuples), modelled as a
stable insertion sort. -/
def sortPoints (l : List Point) : List Point := List.insertionSort tupleLe l

/-- Python `sorted(points, key=lambda x: x[0])` (stable, by time), modelled as
a stable insertion sort. -/
def sortByTime (l : List Point) : List Point := List.insertionSort timeLe l

/-- Loop body of `PWLEditor._ensure_min_spacing` for the points after the
first: each point whose time is below `prev + TIME_MIN_PRECISION` is raised
to exactly that bound; `prev` is threaded through. -/
def ensureGo (prev : ℚ) : List Point → List Point
  | [] => []
  | (t, v) :: rest =>
      let t2 := if t < prev + TIME_MIN_PRECISION then prev + TIME_MIN_PRECISION else t
      (t2, v) :: ensureGo t2 rest

/-- `PWLEditor._ensure_min_spacing(points)`: sort by time, clamp the first
point at `max 0 t`, then raise each later time to at least
`prev + TIME_MIN_PRECISION`. -/
def ensure_min_spacing (points : List Point) : List Point :=
  match sortByTime points with
  | [] => []
  | (t, v) :: rest =>
      let t0 := max 0 t
      (t0, v) :: ensureGo t0 rest

/-- Minimum-gap relation between consecutive points of a spacing-valid
waveform. -/
def gapR (p q : Point) : Prop := p.1 + TIME_MIN_PRECISION ≤ q.1

instance : IsTrans Point gapR where
  trans p q r h1 h2 := by
    unfold gapR at *
    have hε : (0:ℚ) ≤ TIME_MIN_PRECISION := by unfold TIME_MIN_PRECISION; positivity
    nlinarith

/-- The spacing invariant of §8 of the spec: consecutive times differ by at
least `TIME_MIN_PRECISION`, and the first time is nonnegative. -/
def spacing_invariant (l : List Point) : Prop :=
  List.Chain' gapR l ∧ ∀ p ∈ l.head?, (0:ℚ) ≤ p.1

/-- Python built-in `round`: round half to even (banker rounding), as used by
the drag-release quantization and the quick-add key handler. -/
def pyRound (q : ℚ) : ℤ :=
  let f := ⌊q⌋
  let r := q - f
  if r < 1 / 2 then f
  else if 1 / 2 < r then f + 1
  else if f % 2 = 0 then f else f + 1

/-- Python `list.index(x)`: index of the first occurrence of `x`, `none` when
absent (where the source would raise `ValueError`). -/
def py_index (x : Point) : List Point → Option ℕ
  | [] => none
  | y :: ys => if y = x then some 0 else (py_index x ys).map (· + 1)

/-- `PWLEditor._check_time_conflict(new_time, exclude_index)`: true when some
non-excluded point lies strictly within `TIME_MIN_PRECISION * 2` of
`new_time`. -/
def check_time_conflict (points : List Point) (new_time : ℚ)
    (exclude_index : Option ℕ) : Bool :=
  points.enum.any (fun it =>
    if exclude_index = some it.1 then false
    else decide (|it.2.1 - new_time| < TIME_MIN_PRECISION * 2))

/-- Failure modes of the Store mutations (`messagebox.showerror` branches in
`add_point` / `update_point`). -/
inductive StoreError where
  | negativeTime
  | timeConflict
deriving DecidableEq

/-- `PWLEditor.add_point` (numeric core, after the entry fields are parsed):
negative-time check, conflict check, append, lexicographic re-sort, and
re-discovery of the inserted index by value.  The `getD 0` covers Python
`list.index`, which cannot fail here because the point was just inserted. -/
def add_point (points : List Point) (t v : ℚ) :
    Except StoreError (List Point × ℕ) :=
  if t < 0 then .error .negativeTime
  else if check_time_conflict points t none then .error .timeConflict
  else
    let pts := sortPoints (points ++ [(t, v)])
    .ok (pts, (py_index (t, v) pts).getD 0)

/-- `PWLEditor.update_point` (numeric core): negative-time check, silent
return on an out-of-range index, conflict check excluding the edited index
(only when the time actually changes), in-place replacement, re-sort, and
index re-discovery by value. -/
def update_point (points : List Point) (index : ℕ) (t v : ℚ) :
    Except StoreError (List Point × Option ℕ) :=
  if t < 0 then .error .negativeTime
  else
    match points[index]? with
    | none => .ok (points, none)
    | some old =>
        if t ≠ old.1 ∧ check_time_conflict points t (some index) then
          .error .timeConflict
        else
          let pts := sortPoints (points.set index (t, v))
          .ok (pts, some ((py_index (t, v) pts).getD 0))

/-- `PWLEditor.delete_point` (deletion core): remove the selected indices in
descending order, skipping out-of-range ones.  The selection is a Python
set, so the index list is deduplicated before sorting. -/
def delete_points (points : List Point) (selected : List ℕ) : List Point :=
  let ordered := List.insertionSort (fun a b : ℕ => b ≤ a) selected.dedup
  ordered.foldl (fun ps i => if i < ps.length then ps.eraseIdx i else ps) points

/-- `PWLEditor.quick_add_point`: append `(0, 0)` to an empty waveform, else
`(last_time + 1e-3, 0)`; re-sort; the returned index (found by value) becomes
the sole selected / primary index. -/
def quick_add_point (points : List Point) : List Point × ℕ :=
  let tv : Point :=
    match points.getLast? with
    | none => (0, 0)
    | some lp => (lp.1 + 1 / 10 ^ 3, 0)
  let pts := sortPoints (points ++ [tv])
  (pts, (py_index tv pts).getD 0)

/-- `PWLEditor._handle_placement_commit(x)`: on a nonempty placement list,
anchor at `max 0 x`, shift the relative points, extend the store, re-sort,
and recover the inserted indices by value (`try: index; except: pass`).
An empty placement list only cancels the mode. -/
def handle_placement_commit (points placement_data : List Point) (x : ℚ) :
    List Point × List ℕ :=
  if placement_data.isEmpty then (points, [])
  else
    let start_time := max 0 x
    let new_points := placement_data.map (fun tv => (start_time + tv.1, tv.2))
    let pts := sortPoints (points ++ new_points)
    (pts, new_points.filterMap (fun p => py_index p pts))

/-- Python `bisect.bisect_left(a, x)` on an ascending list: the leftmost
insertion point, which equals the number of elements strictly below `x`
(modelled from the stdlib documentation of `bisect`). -/
def bisect_left (a : List ℚ) (x : ℚ) : ℕ := a.countP (fun t => decide (t < x))

/-- One entry `[i, t, v, low, high]` of `PWLEditor._enforce_min_dt_for_drag`;
`high = none` models `float('inf')`. -/
structure DragEntry where
  idx : ℕ
  t : ℚ
  v : ℚ
  low : ℚ
  high : Option ℚ

/-- Ordering used to sort drag entries by proposed time. -/
def dragLe (a b : DragEntry) : Prop := a.t ≤ b.t

instance : DecidableRel dragLe := fun a b => by
  unfold dragLe; infer_instance

/-- Final cascade of `PWLEditor._enforce_min_dt_for_drag`: clamp each entry
to `max low (prev + TIME_MIN_PRECISION)`, then to `high`, except that the
previous adjusted time plus the minimum spacing wins over `high` when the
corridor is too tight; floor at zero; write back at the original index. -/
def dragSweep : List DragEntry → Option ℚ → List Point → List Point
  | [], _, pts => pts
  | e :: rest, prev_adj, pts =>
      let t1 := max e.t e.low
      let t2 := match prev_adj with
        | some p => max t1 (p + TIME_MIN_PRECISION)
        | none => t1
      let t3 := match e.high with
        | some h =>
            if t2 > h then
              match prev_adj with
              | some p => if h < p + TIME_MIN_PRECISION then p + TIME_MIN_PRECISION else h
              | none => h
            else t2
        | none => t2
      let t4 := if t3 < 0 then 0 else t3
      dragSweep rest (some t4) (pts.set e.idx (t4, e.v))

/-- `PWLEditor._enforce_min_dt_for_drag(dragged_indices)`: compute for every
dragged point a corridor `[low, high]` from its non-dragged neighbours (found
via `bisect_left` over the sorted non-dragged times), sort the entries by
proposed time, and run the clamping cascade. -/
def enforce_min_dt_for_drag (points : List Point) (dragged_indices : List ℕ) :
    List Point :=
  if dragged_indices.isEmpty then points
  else
    let non_drag := (points.enum.filter
      (fun ip => !dragged_indices.contains ip.1)).map Prod.snd
    let non_drag := sortByTime non_drag
    let non_times := non_drag.map Prod.fst
    let entries := dragged_indices.filterMap (fun i =>
      match points[i]? with
      | none => none
      | some p =>
          let pos := bisect_left non_times p.1
          let prev_time := if 1 ≤ pos then non_times[pos - 1]? else none
          let next_time := non_times[pos]?
          let low := max 0 (match prev_time with
            | some pt => pt + TIME_MIN_PRECISION
            | none => 0)
          let high := next_time.map (fun nt => nt - TIME_MIN_PRECISION)
          some ⟨i, p.1, p.2, low, high⟩)
    let entries := List.insertionSort dragLe entries
    dragSweep entries none points

/-- Drag-release quantization in `PWLEditor._on_mouse_release`: snap the time
to the `TIME_MIN_PRECISION` grid (then floor at zero) and the value to the
active drag-precision grid. -/
def quantize_drag_point (drag_precision : ℚ) (p : Point) : Point :=
  let t := (pyRound (p.1 / TIME_MIN_PRECISION) : ℚ) * TIME_MIN_PRECISION
  let t := max 0 t
  let v := (pyRound (p.2 / drag_precision) : ℚ) * drag_precision
  (t, v)

/-- Drag section of `PWLEditor._on_mouse_release`: quantize every dragged
point, run `enforce_min_dt_for_drag`, re-sort the store, and recover the
dragged indices by value lookup (skipping `ValueError`s). -/
def on_drag_release (points : List Point) (dragging_indices : List ℕ)
    (drag_precision : ℚ) : List Point × List ℕ :=
  let pts := dragging_indices.foldl (fun ps i =>
    match ps[i]? with
    | some p => ps.set i (quantize_drag_point drag_precision p)
    | none => ps) points
  let pts2 := enforce_min_dt_for_drag pts dragging_indices
  let dragged_values := dragging_indices.filterMap (fun i => pts2[i]?)
  let sorted := sortPoints pts2
  (sorted, dragged_values.filterMap (fun val => py_index val sorted))

/-- Drag section of `PWLEditor._on_mouse_motion`: each dragged point is set
to its snapshotted original position shifted by the world-space delta, with
the time floored at zero. -/
def drag_motion_update (points : List Point)
    (drag_original_data : List (ℕ × Point)) (dx dy : ℚ) : List Point :=
  drag_original_data.foldl (fun ps ip =>
    if ip.1 < ps.length then
      ps.set ip.1 (max 0 (ip.2.1 + dx), ip.2.2 + dy)
    else ps) points

/-- Symmetric separation of two points by at least `TIME_MIN_PRECISION` in
time; the order-independent core of the spacing invariant. -/
def sepR (p q : Point) : Prop := TIME_MIN_PRECISION ≤ |p.1 - q.1|

/-- The world bounds of the plot canvas (`PWLGraphCanvas.x_min` .. `y_max`). -/
structure Viewport where
  x_min : ℚ
  x_max : ℚ
  y_min : ℚ
  y_max : ℚ
deriving DecidableEq

/-- Python `min` over a nonempty list (the empty case never occurs in the
calls modelled here). -/
def list_min : List ℚ → ℚ
  | [] => 0
  | x :: xs => xs.foldl min x

/-- Python `max` over a nonempty list. -/
def list_max : List ℚ → ℚ
  | [] => 0
  | x :: xs => xs.foldl max x

/-- `PWLEditor._enforce_negative_axis_limit`: normalize a degenerate range,
force `x_max` above a tiny positive floor, then clamp `canvas.x_min` so the
negative part of the X range is at most 5% (`limit_min = -(0.05/0.95) *
x_max`).  The Python code mixes local variables with canvas writes; the
locals are modelled separately from the returned record, exactly as in the
source (in particular the first branch updates only the local `x_max`). -/
def enforce_negative_axis_limit (c : Viewport) : Viewport :=
  let x_min := c.x_min
  let x_max := c.x_max
  let rng := x_max - x_min
  let rng2 := if rng ≤ 0 then (1:ℚ) / 10 ^ 12 else rng
  let x_max2 := if rng ≤ 0 then x_min + (1:ℚ) / 10 ^ 12 else x_max
  let c2 :=
    if x_max2 ≤ 1 / 10 ^ 15 then
      let xm := (1:ℚ) / 10 ^ 15
      let ca := { c with x_max := xm, x_min := xm - rng2 }
      let rng3 := xm - ca.x_min
      if rng3 ≤ 0 then { ca with x_min := xm - (1:ℚ) / 10 ^ 12 } else ca
    else c
  let x_minF := if x_max2 ≤ 1 / 10 ^ 15 then (1:ℚ) / 10 ^ 15 - rng2 else x_min
  let x_maxF := if x_max2 ≤ 1 / 10 ^ 15 then (1:ℚ) / 10 ^ 15 else x_max2
  if x_minF < 0 ∧ 0 < x_maxF then
    let limit_min := -((5 / 100 : ℚ) / (95 / 100)) * x_maxF
    if x_minF < limit_min then { c2 with x_min := limit_min } else c2
  else c2

/-- `PWLEditor.zoom_to_all_points`: pad the bounding box of the data (with
`0` adjoined on the X axis) by 5% of the X range and 10% of the Y range
(degenerate ranges fall back to `max |bound| 1`), write the canvas bounds,
and apply the negative-axis clamp.  An empty waveform leaves the canvas
unchanged. -/
def zoom_to_all_points (points : List Point) (c : Viewport) : Viewport :=
  match points with
  | [] => c
  | _ :: _ =>
      let times := points.map Prod.fst
      let values := points.map Prod.snd
      let all_x := times ++ [0]
      let x_min := list_min all_x
      let x_max := list_max all_x
      let y_min := list_min values
      let y_max := list_max values
      let x_range := if x_min < x_max then x_max - x_min else max |x_max| 1
      let y_range := if y_min < y_max then y_max - y_min else max |y_max| 1
      let x_padding := x_range * (5 / 100)
      let y_padding := y_range * (10 / 100)
      enforce_negative_axis_limit
        { x_min := x_min - x_padding, x_max := x_max + x_padding,
          y_min := y_min - y_padding, y_max := y_max + y_padding }

/-- Outcome of `PWLEditor._load_waveform_from_file` as seen by the user:
which message box is shown. -/
inductive LoadOutcome where
  | ioError
  | missingField
  | success
deriving DecidableEq

/-- The possible results of reading and JSON-parsing the chosen file:
read/parse failure, an object without a `"points"` key, or an object whose
`"points"` entry decodes to a point list. -/
inductive LoadInput where
  | ioFailure
  | missingPoints
  | ok (ps : List Point)

/-- `PWLEditor._load_waveform_from_file` (after the file dialog): any failure
aborts before the store assignment, leaving points and viewport untouched;
on success the whole store is replaced and `zoom_to_all_points` refits the
viewport. -/
def load_waveform_from_file (points : List Point) (c : Viewport)
    (input : LoadInput) : (List Point × Viewport) × LoadOutcome :=
  match input with
  | .ioFailure => ((points, c), .ioError)
  | .missingPoints => ((points, c), .missingField)
  | .ok ps => ((ps, zoom_to_all_points ps c), .success)

/-- Pixel geometry and world viewport of a `PWLGraphCanvas`: widget size,
the four fixed margins, and the world bounds. -/
structure CanvasGeom where
  width : ℚ
  height : ℚ
  margin_left : ℚ
  margin_right : ℚ
  margin_top : ℚ
  margin_bottom : ℚ
  x_min : ℚ
  x_max : ℚ
  y_min : ℚ
  y_max : ℚ

/-- `PWLGraphCanvas.world_to_screen`: affine world-to-pixel map with an
inverted Y axis; degenerate draw areas return `(0, 0)` and zero-width ranges
are replaced by `1e-9`. -/
def world_to_screen (c : CanvasGeom) (x y : ℚ) : ℚ × ℚ :=
  let draw_w := c.width - c.margin_left - c.margin_right
  let draw_h := c.height - c.margin_top - c.margin_bottom
  if draw_w ≤ 0 ∨ draw_h ≤ 0 then (0, 0)
  else
    let x_range := c.x_max - c.x_min
    let y_range := c.y_max - c.y_min
    let x_range := if x_range = 0 then (1:ℚ) / 10 ^ 9 else x_range
    let y_range := if y_range = 0 then (1:ℚ) / 10 ^ 9 else y_range
    let sx := c.margin_left + (x - c.x_min) / x_range * draw_w
    let sy := c.margin_top + draw_h - (y - c.y_min) / y_range * draw_h
    (sx, sy)

/-- `PWLGraphCanvas._lod_pixel_step = 2`. -/
def LOD_PIXEL_STEP : ℚ := 2

/-- `PWLGraphCanvas._max_preview_points = 3000`. -/
def MAX_PREVIEW_POINTS : ℕ := 3000

/-- Decimation loop shared by `PWLGraphCanvas.redraw` and
`PWLGraphCanvas.update_cursor_only`: walk the preview points, keep a point
when there is no previously kept point or its screen X is at least `step`
away from the last kept one, and break once the kept count exceeds `cap`. -/
def decimateGo (c : CanvasGeom) (step : ℚ) (cap : ℕ) :
    List Point → Option ℚ → List Point → List Point
  | [], _, decimated => decimated
  | (t, v) :: rest, last_sx, decimated =>
      let sx := (world_to_screen c t v).1
      let keep : Bool := match last_sx with
        | none => true
        | some l => decide (step ≤ |sx - l|)
      let decimated2 := if keep then decimated ++ [(t, v)] else decimated
      let last2 := if keep then some sx else last_sx
      if cap < decimated2.length then decimated2
      else decimateGo c step cap rest last2 decimated2

/-- The placement-preview decimation pass with the canvas defaults
(`step = max 1 _lod_pixel_step`, `cap = _max_preview_points`). -/
def decimate_preview (c : CanvasGeom) (line : List Point) : List Point :=
  decimateGo c (max 1 LOD_PIXEL_STEP) MAX_PREVIEW_POINTS line none []

/-- Concrete canvas for the decimation counterexample: 6084 x 100 pixels,
default margins, X view `[0, 3002]`, so consecutive integer times are
exactly 2 screen pixels apart. -/
def c9_canvas : CanvasGeom :=
  ⟨6084, 100, 60, 20, 20, 30, 0, 3002, -1, 1⟩

/-- Preview candidate list `[(0,0), (1,0), ..., (3001,0)]` (3002 points). -/
def c9_input : List Point := (List.range 3002).map (fun i : ℕ => ((i : ℚ), 0))

/-- Frequency fallback in `PWLEditor._wave_params_to_points`: a missing or
nonpositive frequency becomes `1e-9`. -/
def resolve_freq (freq : Option ℚ) : ℚ :=
  match freq with
  | none => 1 / 10 ^ 9
  | some f => if f ≤ 0 then 1 / 10 ^ 9 else f

/-- Period resolution in `PWLEditor._wave_params_to_points`: an explicit
positive period wins, else `1 / freq` (with the frequency fallback). -/
def resolve_period (period freq : Option ℚ) : ℚ :=
  match period with
  | none => 1 / resolve_freq freq
  | some p => if p ≤ 0 then 1 / resolve_freq freq else p

/-- Duration resolution: a missing or nonpositive duration becomes one
period. -/
def resolve_duration (duration : Option ℚ) (period : ℚ) : ℚ :=
  match duration with
  | none => period
  | some d => if d ≤ 0 then period else d

/-- Python `max(0.0, min(1.0, x))`, the duty / rise-fraction clamp. -/
def clamp01 (x : ℚ) : ℚ := max 0 (min 1 x)

/-- The square-wave cycle loop of `PWLEditor._wave_params_to_points`
(`while t < duration - 1e-15`).  The extra `0 < period` conjunct makes the
termination measure explicit; the resolved period is always positive (the
source would loop forever otherwise). -/
def square_loop (period t_high tr tf duration amp offs t : ℚ) : List Point :=
  if h : t < duration - 1 / 10 ^ 15 ∧ 0 < period then
    (t, offs - amp) :: (min (t + tr) duration, offs + amp) ::
      ((if t + t_high < duration then
          [(t + t_high, offs + amp), (min (t + t_high + tf) duration, offs - amp)]
        else [])
      ++ ((if t + period < duration then [(t + period, offs - amp)] else [])
          ++ square_loop period t_high tr tf duration amp offs (t + period)))
  else []
termination_by ⌈(duration - t) / period⌉.toNat
decreasing_by
  obtain ⟨ht, hp⟩ := h
  have h1 : (duration - (t + period)) / period = (duration - t) / period - 1 := by
    field_simp
    ring
  rw [h1]
  have h2 : ⌈(duration - t) / period - 1⌉ = ⌈(duration - t) / period⌉ - 1 := by
    have := Int.ceil_sub_int ((duration - t) / period) 1
    exact_mod_cast this
  rw [h2]
  have hpos : (0:ℚ) < (duration - t) / period := by
    apply div_pos _ hp
    have : (0:ℚ) < 1 / 10 ^ 15 := by norm_num
    linarith
  have hceil : 1 ≤ ⌈(duration - t) / period⌉ := Int.ceil_pos.mpr hpos
  omega

/-- The triangle-wave cycle loop of `PWLEditor._wave_params_to_points`. -/
def triangle_loop (period t_rise duration amp offs t : ℚ) : List Point :=
  if h : t < duration - 1 / 10 ^ 15 ∧ 0 < period then
    (t, offs - amp) ::
      ((if t + t_rise ≤ duration then [(t + t_rise, offs + amp)] else [])
      ++ ((if t + period ≤ duration then [(t + period, offs - amp)] else [])
          ++ triangle_loop period t_rise duration amp offs (t + period)))
  else []
termination_by ⌈(duration - t) / period⌉.toNat
decreasing_by
  obtain ⟨ht, hp⟩ := h
  have h1 : (duration - (t + period)) / period = (duration - t) / period - 1 := by
    field_simp
    ring
  rw [h1]
  have h2 : ⌈(duration - t) / period - 1⌉ = ⌈(duration - t) / period⌉ - 1 := by
    have := Int.ceil_sub_int ((duration - t) / period) 1
    exact_mod_cast this
  rw [h2]
  have hpos : (0:ℚ) < (duration - t) / period := by
    apply div_pos _ hp
    have : (0:ℚ) < 1 / 10 ^ 15 := by norm_num
    linarith
  have hceil : 1 ≤ ⌈(duration - t) / period⌉ := Int.ceil_pos.mpr hpos
  omega

/-- Post-processing of `PWLEditor._wave_params_to_points`: sort by time, then
shift so the first time is exactly 0. -/
def normalize_wave (pts : List Point) : List Point :=
  let sorted := sortByTime pts
  match sorted with
  | [] => []
  | s0 :: _ => sorted.map (fun tv => (tv.1 - s0.1, tv.2))

/-- `PWLEditor._wave_params_to_points("square", ...)`: resolve the period,
amplitude, offset and duration defaults, default the transition times to
`period/100` (forced to `period/20` when `tr + tf >= period`), resolve the
high time from an explicit positive `t_high` (clamped to
`period - (tr + tf)`, floored at `1e-15`) or from the clamped duty, run the
cycle loop, then sort and shift to start at time 0. -/
def wave_square (freq period amp offs duration duty t_high tr tf : Option ℚ) :
    List Point :=
  let p := resolve_period period freq
  let a := amp.getD 1
  let o := offs.getD 0
  let dur := resolve_duration duration p
  let tr0 := match tr with
    | none => p / 100
    | some x => if x ≤ 0 then p / 100 else x
  let tf0 := match tf with
    | none => p / 100
    | some x => if x ≤ 0 then p / 100 else x
  let trf := if p ≤ tr0 + tf0 then (p / 20, p / 20) else (tr0, tf0)
  let th := match t_high with
    | some x =>
        if 0 < x then min x (max (1 / 10 ^ 15) (p - (trf.1 + trf.2)))
        else p * clamp01 (duty.getD (1 / 2))
    | none => p * clamp01 (duty.getD (1 / 2))
  normalize_wave (square_loop p th trf.1 trf.2 dur a o 0)

/-- `PWLEditor._wave_params_to_points("triangle", ...)`: resolve defaults,
take the rise time from an explicit nonnegative `t_rise` (clamped to
`[0, period]`) or from the clamped rise fraction (source keyword
`rise_ratio`, default `0.5`), run the cycle loop, then sort and shift. -/
def wave_triangle (freq period amp offs duration rise_frac t_rise : Option ℚ) :
    List Point :=
  let p := resolve_period period freq
  let a := amp.getD 1
  let o := offs.getD 0
  let dur := resolve_duration duration p
  let trise := match t_rise with
    | some x =>
        if 0 ≤ x then min p (max 0 x)
        else p * clamp01 (rise_frac.getD (1 / 2))
    | none => p * clamp01 (rise_frac.getD (1 / 2))
  normalize_wave (triangle_loop p trise dur a o 0)

/-- ASCII digit character for a decimal digit (`d ≥ 9` falls through to
`'9'`; all call sites pass `d < 10`). -/
def digitChar : ℕ → Char
  | 0 => '0'
  | 1 => '1'
  | 2 => '2'
  | 3 => '3'
  | 4 => '4'
  | 5 => '5'
  | 6 => '6'
  | 7 => '7'
  | 8 => '8'
  | _ => '9'

/-- Least-significant-first decimal digits of `n`, with structural fuel
(`fuel ≥ n` suffices) so that formatting evaluates by reduction. -/
def natDigitsAux : ℕ → ℕ → List ℕ
  | 0, _ => []
  | _ + 1, 0 => []
  | fuel + 1, n + 1 => ((n + 1) % 10) :: natDigitsAux fuel ((n + 1) / 10)

/-- Most-significant-first decimal digits of `n`, with `[0]` for zero — the
digit list of Python `str(n)`. -/
def natDigitsM (n : ℕ) : List ℕ :=
  match n with
  | 0 => [0]
  | _ => (natDigitsAux n n).reverse

/-- Numeric value of a least-significant-first digit list. -/
def digitsVal : List ℕ → ℕ
  | [] => 0
  | d :: ds => d + 10 * digitsVal ds

/-- Numeric value of a most-significant-first digit list. -/
def msbVal (ds : List ℕ) : ℕ := ds.foldl (fun a d => a * 10 + d) 0

/-- The decimal character rendering of `n`, as in Python `str(n)`. -/
def natChars (n : ℕ) : List Char := (natDigitsM n).map digitChar

/-- Zero padding of a fractional digit block to width `k`, as in the
fractional part of Python `f"{x:.6f}"`. -/
def padDigits (k : ℕ) (ds : List ℕ) : List ℕ :=
  List.replicate (k - ds.length) 0 ++ ds

/-- Python `f"{x:.6f}"` on the exact rational `x`: round half to even at the
sixth decimal, then render sign, integer part, `'.'` and exactly six
fractional digits. -/
def formatF6 (x : ℚ) : List Char :=
  let n := pyRound (x * 10 ^ 6)
  let a := n.natAbs
  (if x < 0 then ['-'] else []) ++ natChars (a / 10 ^ 6) ++
    '.' :: (padDigits 6 (natDigitsM (a % 10 ^ 6))).map digitChar

/-- Python `str.rstrip(c)` for a single strip character. -/
def rstripChar (c : Char) (s : List Char) : List Char :=
  (s.reverse.dropWhile (fun a => a == c)).reverse

/-- Trailing zeros of a digit block removed; the digit-level counterpart of
the `rstrip` calls in `engineering_format`. -/
def stripTrailingZeros (ds : List ℕ) : List ℕ :=
  (ds.reverse.dropWhile (fun d => d == 0)).reverse

/-- Python `str.strip()`: whitespace removed from both ends. -/
def stripChars (s : List Char) : List Char :=
  ((s.dropWhile (fun a => a.isWhitespace)).reverse.dropWhile
    (fun a => a.isWhitespace)).reverse

/-- Floor of the decimal logarithm of `q`, the exponent chosen by the C
`%.3e` formatting that Python `f"{v:.3e}"` delegates to. -/
def decExp (q : ℚ) : ℤ := Int.log 10 q

/-- Exponent digits of `%.3e`: explicit sign and at least two digits. -/
def expChars (e : ℤ) : List Char :=
  (if e < 0 then ['-'] else ['+']) ++
    (if e.natAbs < 10 then '0' :: natChars e.natAbs else natChars e.natAbs)

/-- Python `f"{v:.3e}"` for `v ≠ 0`: three half-even-rounded fractional
mantissa digits, with a carry into the exponent when rounding reaches
`10.000`. -/
def formatE3 (v : ℚ) : List Char :=
  let e0 := decExp |v|
  let m := |v| / (10:ℚ) ^ e0
  let n0 := pyRound (m * 10 ^ 3)
  let n := if 10 ^ 4 ≤ n0 then n0 / 10 else n0
  let e1 := if 10 ^ 4 ≤ n0 then e0 + 1 else e0
  (if v < 0 then ['-'] else []) ++ natChars (n.natAbs / 10 ^ 3) ++
    '.' :: (padDigits 3 (natDigitsM (n.natAbs % 10 ^ 3))).map digitChar ++
    'e' :: expChars e1

/-- `PWLEditor.ENGINEERING_PREFIXES`, iterated in descending key order as in
`engineering_format` (`sorted(keys, reverse=True)`). -/
def ENG_THRESHOLDS : List (ℚ × List Char) :=
  [(10 ^ 9, ['G']), (10 ^ 6, ['M']), (10 ^ 3, ['k']), (1, []),
   (1 / 10 ^ 3, ['m']), (1 / 10 ^ 6, ['u']), (1 / 10 ^ 9, ['n']),
   (1 / 10 ^ 12, ['p'])]

/-- `PWLEditor.engineering_format` at character-list level: `0 → "0"`; else
the first threshold `≤ |value|` wins, the scaled value is rendered with six
fractional digits, trailing zeros and a dangling point are stripped, and the
prefix letter is appended; with no matching threshold fall back to
scientific notation with three fractional digits. -/
def engFormatChars (value : ℚ) : List Char :=
  if value = 0 then ['0']
  else
    match ENG_THRESHOLDS.find? (fun ep => decide (|value| ≥ ep.1)) with
    | some ep =>
        rstripChar '.' (rstripChar '0' (formatF6 (value / ep.1))) ++ ep.2
    | none => formatE3 value

/-- `PWLEditor.engineering_format`, producing a `String`. -/
def engineering_format (value : ℚ) : String := ⟨engFormatChars value⟩

/-- `PWLEditor.PREFIX_TO_VALUE` in dict insertion order; the empty-prefix
entry is omitted because the parse loop skips it (`if prefix and ...`). -/
def PREFIX_TO_VALUE : List (Char × ℚ) :=
  [('p', 1 / 10 ^ 12), ('n', 1 / 10 ^ 9), ('u', 1 / 10 ^ 6), ('m', 1 / 10 ^ 3),
   ('k', 10 ^ 3), ('M', 10 ^ 6), ('G', 10 ^ 9)]

/-- `c` is an ASCII decimal digit. -/
def isDigitChar (c : Char) : Bool :=
  decide (48 ≤ c.toNat) && decide (c.toNat ≤ 57)

/-- Numeric value of an ASCII digit character. -/
def digitVal (c : Char) : ℕ := c.toNat - 48

/-- Maximal digit run: accumulated value, digit count, rest. -/
def takeDigits : List Char → ℕ → ℕ → ℕ × ℕ × List Char
  | [], acc, cnt => (acc, cnt, [])
  | c :: cs, acc, cnt =>
      if isDigitChar c then takeDigits cs (acc * 10 + digitVal c) (cnt + 1)
      else (acc, cnt, c :: cs)

/-- Python `float(text)` on the numeric grammar
`[sign] digits [. digits] [(e|E) [sign] digits]` (at least one mantissa
digit); other strings — which `float` would reject with `ValueError` —
give `none`.  Special values such as `inf`/`nan` are not modelled. -/
def parseFloatChars (cs : List Char) : Option ℚ :=
  let sc : ℚ × List Char :=
    match cs with
    | c :: rest => if c = '-' then (-1, rest) else if c = '+' then (1, rest) else (1, cs)
    | [] => (1, cs)
  let ipr := takeDigits sc.2 0 0
  let fpr : ℕ × ℕ × List Char :=
    match ipr.2.2 with
    | c :: rest => if c = '.' then takeDigits rest 0 0 else (0, 0, ipr.2.2)
    | [] => (0, 0, ipr.2.2)
  if ipr.2.1 = 0 ∧ fpr.2.1 = 0 then none
  else
    let mant : ℚ := sc.1 * ((ipr.1 : ℚ) + (fpr.1 : ℚ) / 10 ^ fpr.2.1)
    match fpr.2.2 with
    | [] => some mant
    | e :: rest =>
        if e = 'e' ∨ e = 'E' then
          let esr : ℤ × List Char :=
            match rest with
            | c :: r => if c = '-' then (-1, r) else if c = '+' then (1, r) else (1, rest)
            | [] => (1, rest)
          let epr := takeDigits esr.2 0 0
          if epr.2.1 = 0 ∨ ¬ epr.2.2.isEmpty then none
          else some (mant * (10:ℚ) ^ (esr.1 * (epr.1 : ℤ)))
        else none

/-- `PWLEditor.parse_engineering_format`: strip whitespace, reject the empty
string, try each known one-letter suffix in dict order (first match wins and
its failure is not recovered), else parse as a plain float. -/
def parse_engineering_format (s : String) : Option ℚ :=
  let t := stripChars s.data
  if t.isEmpty then none
  else
    match PREFIX_TO_VALUE.find? (fun cf => t.getLast? == some cf.1) with
    | some cf => (parseFloatChars t.dropLast).map (· * cf.2)
    | none => parseFloatChars t

theorem TIME_MIN_PRECISION_pos : (0:ℚ) < TIME_MIN_PRECISION := by
  unfold TIME_MIN_PRECISION; positivity

theorem ensureGo_chain (l : List Point) : ∀ (p : Point),
    List.Chain' gapR (p :: ensureGo p.1 l) := by
  induction l with
  | nil => intro p; simp [ensureGo]
  | cons q rest ih =>
      intro p
      obtain ⟨t, v⟩ := q
      simp only [ensureGo]
      rw [List.chain'_cons]
      constructor
      · unfold gapR
        split
        · exact le_refl _
        · exact le_of_not_lt (by assumption)
      · exact ih _

theorem ensureGo_id (l : List Point) : ∀ (prev : ℚ),
    List.Chain' gapR l → (∀ p ∈ l.head?, prev + TIME_MIN_PRECISION ≤ p.1) →
    ensureGo prev l = l := by
  induction l with
  | nil => intro _ _ _; rfl
  | cons q rest ih =>
      intro prev hchain hhead
      obtain ⟨t, v⟩ := q
      have ht : prev + TIME_MIN_PRECISION ≤ t := hhead (t, v) rfl
      simp only [ensureGo, if_neg (not_lt.mpr ht)]
      rw [List.chain'_cons'] at hchain
      congr 1
      refine ih t hchain.2 ?_
      intro p hp
      have := hchain.1 p hp
      exact this

theorem spacing_invariant_sorted {l : List Point} (h : List.Chain' gapR l) :
    List.Sorted timeLe l := by
  have hp := List.chain'_iff_pairwise.mp h
  exact hp.imp (fun {p q} hpq => by
    unfold gapR at hpq
    unfold timeLe
    nlinarith [TIME_MIN_PRECISION_pos])

/-- C5: `ensure_min_spacing` output satisfies the gap chain. -/
theorem ensure_min_spacing_chain (l : List Point) :
    List.Chain' gapR (ensure_min_spacing l) := by
  unfold ensure_min_spacing
  rcases hs : sortByTime l with _ | ⟨⟨t, v⟩, rest⟩
  · simp
  · exact ensureGo_chain rest (max 0 t, v)

theorem ensure_min_spacing_head (l : List Point) :
    ∀ p ∈ (ensure_min_spacing l).head?, (0:ℚ) ≤ p.1 := by
  unfold ensure_min_spacing
  rcases hs : sortByTime l with _ | ⟨⟨t, v⟩, rest⟩
  · simp
  · intro p hp
    simp only [List.head?_cons, Option.mem_def, Option.some.injEq] at hp
    subst hp
    exact le_max_left 0 t

/-- C5: the claim, as written — applying `ensure_min_spacing` twice gives the
same list as applying it once. -/
theorem ensure_min_spacing_idempotent (l : List Point) :
    ensure_min_spacing (ensure_min_spacing l) = ensure_min_spacing l := by
  have hchain := ensure_min_spacing_chain l
  have hhead := ensure_min_spacing_head l
  have hsorted : List.Sorted timeLe (ensure_min_spacing l) :=
    spacing_invariant_sorted hchain
  have hfix : sortByTime (ensure_min_spacing l) = ensure_min_spacing l :=
    hsorted.insertionSort_eq
  rcases he : ensure_min_spacing l with _ | ⟨⟨t, v⟩, rest⟩
  · unfold ensure_min_spacing
    rw [he] at hfix
    rw [hfix]
  · rw [he] at hfix hchain hhead
    unfold ensure_min_spacing
    rw [hfix]
    show ((max 0 t, v) :: ensureGo (max 0 t) rest) = (t, v) :: rest
    have ht0 : (0:ℚ) ≤ t := hhead (t, v) rfl
    have hmax : max 0 t = t := max_eq_right ht0
    rw [List.chain'_cons'] at hchain
    rw [hmax]
    congr 1
    refine ensureGo_id rest t hchain.2 ?_
    intro p hp
    exact hchain.1 p hp

theorem sortPoints_perm (l : List Point) : (sortPoints l).Perm l :=
  List.perm_insertionSort tupleLe l

theorem sortPoints_sorted (l : List Point) : List.Sorted tupleLe (sortPoints l) :=
  List.sorted_insertionSort tupleLe l

theorem py_index_get {x : Point} :
    ∀ {l : List Point} {i : ℕ}, py_index x l = some i → l[i]? = some x := by
  intro l
  induction l with
  | nil => intro i h; simp [py_index] at h
  | cons y ys ih =>
      intro i h
      by_cases hy : y = x
      · simp only [py_index, if_pos hy] at h
        obtain rfl : (0:ℕ) = i := Option.some.inj h
        simp [hy]
      · simp only [py_index, if_neg hy, Option.map_eq_some'] at h
        obtain ⟨j, hj, rfl⟩ := h
        simpa [List.getElem?_cons_succ] using ih hj

theorem py_index_isSome {x : Point} :
    ∀ {l : List Point}, x ∈ l → (py_index x l).isSome := by
  intro l
  induction l with
  | nil => intro h; simp at h
  | cons y ys ih =>
      intro h
      by_cases hy : y = x
      · simp [py_index, hy]
      · rcases List.mem_cons.mp h with h | h
        · exact absurd h.symm hy
        · simpa [py_index, hy] using ih h

theorem check_time_conflict_none_false {points : List Point} {nt : ℚ}
    (h : check_time_conflict points nt none = false) :
    ∀ p ∈ points, TIME_MIN_PRECISION * 2 ≤ |p.1 - nt| := by
  intro p hp
  obtain ⟨i, hlen, hget⟩ := List.mem_iff_getElem.mp hp
  have hget? : points[i]? = some p := by
    rw [List.getElem?_eq_getElem hlen, hget]
  have hmem : (i, p) ∈ points.enum := List.mk_mem_enum_iff_getElem?.mpr hget?
  unfold check_time_conflict at h
  rw [List.any_eq_false] at h
  have hpred := h (i, p) hmem
  simp only [reduceCtorEq, if_false, decide_eq_true_eq] at hpred
  exact le_of_not_lt hpred

theorem mem_sortPoints_append_right (points : List Point) (x : Point) :
    x ∈ sortPoints (points ++ [x]) := by
  rw [(sortPoints_perm (points ++ [x])).mem_iff]
  exact List.mem_append_right _ (List.mem_singleton_self x)

theorem getD_py_index_get {x : Point} {l : List Point} (h : x ∈ l) :
    l[(py_index x l).getD 0]? = some x := by
  obtain ⟨j, hj⟩ := Option.isSome_iff_exists.mp (py_index_isSome h)
  rw [hj]
  exact py_index_get hj

/-- C4 (amended): `add_point` fails with `NegativeTime` exactly when `t < 0`
(this check comes first), fails with `TimeConflict` exactly when `t ≥ 0` and
some existing point lies strictly within `2 × TIME_MIN_PRECISION` of `t`, and
otherwise inserts the point, re-sorts, and returns the index of the new point
found by value; on the store `[(0,0),(1,1)]` the four conflict-check examples
evaluate as the spec states. -/
theorem add_point_spec :
    (∀ points t v, add_point points t v = .error .negativeTime ↔ t < 0) ∧
    (∀ points t v, add_point points t v = .error .timeConflict ↔
      (0 ≤ t ∧ check_time_conflict points t none = true)) ∧
    (∀ points t v, 0 ≤ t → check_time_conflict points t none = false →
      ∃ pts idx, add_point points t v = .ok (pts, idx) ∧
        pts.Perm (points ++ [(t, v)]) ∧ List.Sorted tupleLe pts ∧
        pts[idx]? = some (t, v)) ∧
    (check_time_conflict [(0, 0), (1, 1)] 0 none = true ∧
     check_time_conflict [(0, 0), (1, 1)] (1 / 10 ^ 13) none = true ∧
     check_time_conflict [(0, 0), (1, 1)] (1 / 2) none = false ∧
     check_time_conflict [(0, 0), (1, 1)] 0 (some 0) = false) := by
  refine ⟨?_, ?_, ?_, ?_, ?_, ?_, ?_⟩
  · intro points t v
    unfold add_point
    split_ifs with h1 h2 <;> simp_all
  · intro points t v
    unfold add_point
    split_ifs with h1 h2 <;> simp_all [le_of_not_lt]
  · intro points t v ht hc
    unfold add_point
    rw [if_neg (not_lt.mpr ht), hc]
    refine ⟨_, _, rfl, sortPoints_perm _, sortPoints_sorted _, ?_⟩
    exact getD_py_index_get (mem_sortPoints_append_right points (t, v))
  · norm_num [check_time_conflict, List.enum, List.enumFrom, TIME_MIN_PRECISION,
      abs_lt, le_abs]
    all_goals simp
  · norm_num [check_time_conflict, List.enum, List.enumFrom, TIME_MIN_PRECISION,
      abs_lt, le_abs]
    all_goals simp
  · norm_num [check_time_conflict, List.enum, List.enumFrom, TIME_MIN_PRECISION,
      abs_lt, le_abs]
  · norm_num [check_time_conflict, List.enum, List.enumFrom, TIME_MIN_PRECISION,
      abs_lt, le_abs]

/-- C4 (counterexample): for `t = -1e-13` against the store `[(0,0),(1,1)]`
the conflict predicate holds, yet `add_point` fails with `NegativeTime`, not
`TimeConflict` — the negative-time check runs first, so "fails with
TimeConflict exactly when some point is within `2 × TIME_MIN_PRECISION`" is
false as stated. -/
theorem add_point_conflict_priority_counterexample :
    check_time_conflict [(0, 0), (1, 1)] (-(1 / 10 ^ 13)) none = true ∧
    add_point [(0, 0), (1, 1)] (-(1 / 10 ^ 13)) 0 ≠
      Except.error StoreError.timeConflict := by
  constructor
  · norm_num [check_time_conflict, List.enum, List.enumFrom, TIME_MIN_PRECISION,
      abs_lt, le_abs]
    all_goals simp
  · have : (-(1 / 10 ^ 13) : ℚ) < 0 := by norm_num
    simp [add_point, this]

/-- C4 (witness): the insertion branch of `add_point_spec` at the empty store
with `t = v = 0`. -/
theorem add_point_spec_witness :
    (0:ℚ) ≤ 0 ∧ check_time_conflict [] 0 none = false ∧
    (∃ pts idx, add_point [] 0 0 = .ok (pts, idx) ∧
      pts.Perm ([] ++ [((0:ℚ), (0:ℚ))]) ∧ List.Sorted tupleLe pts ∧
      pts[idx]? = some (0, 0)) :=
  ⟨le_refl 0, rfl, add_point_spec.2.2.1 [] 0 0 (le_refl 0) rfl⟩

/-- C10: `quick_add_point` on an empty waveform appends `(0, 0)` and selects
it (index `0` is the sole selected and primary index); on a nonempty
waveform it appends `(last_time + 1e-3, 0)` and selects that point. -/
theorem quick_add_point_spec :
    quick_add_point [] = ([((0:ℚ), (0:ℚ))], 0) ∧
    (∀ points lp, points.getLast? = some lp →
      (quick_add_point points).1.Perm (points ++ [(lp.1 + 1 / 10 ^ 3, 0)]) ∧
      (quick_add_point points).1[(quick_add_point points).2]? =
        some (lp.1 + 1 / 10 ^ 3, 0)) := by
  constructor
  · rfl
  · intro points lp hlast
    unfold quick_add_point
    rw [hlast]
    exact ⟨sortPoints_perm _,
      getD_py_index_get (mem_sortPoints_append_right points _)⟩

/-- C10 (witness): `quick_add_point` on the one-point store `[(1, 2)]`. -/
theorem quick_add_point_spec_witness :
    ([((1:ℚ), (2:ℚ))].getLast? = some (1, 2)) ∧
    ((quick_add_point [(1, 2)]).1.Perm ([(1, 2)] ++ [((1:ℚ) + 1 / 10 ^ 3, 0)]) ∧
      (quick_add_point [(1, 2)]).1[(quick_add_point [(1, 2)]).2]? =
        some (1 + 1 / 10 ^ 3, 0)) :=
  ⟨rfl, quick_add_point_spec.2 [(1, 2)] (1, 2) rfl⟩

theorem sepR_symm : ∀ {p q : Point}, sepR p q → sepR q p := by
  intro p q h
  unfold sepR at *
  rwa [abs_sub_comm]

theorem pairwise_sepR_of_spacing {l : List Point} (h : spacing_invariant l) :
    List.Pairwise sepR l := by
  have hp := List.chain'_iff_pairwise.mp h.1
  refine hp.imp (fun {p q} hpq => ?_)
  unfold gapR at hpq
  unfold sepR
  rw [abs_sub_comm, abs_of_nonneg (by linarith [TIME_MIN_PRECISION_pos])]
  linarith

theorem spacing_all_nonneg {l : List Point} (h : spacing_invariant l) :
    ∀ p ∈ l, (0:ℚ) ≤ p.1 := by
  obtain ⟨hchain, hhead⟩ := h
  induction l with
  | nil => intro p hp; simp at hp
  | cons q rest ih =>
      intro p hp
      have hq : (0:ℚ) ≤ q.1 := hhead q rfl
      rcases List.mem_cons.mp hp with rfl | hp
      · exact hq
      · rw [List.chain'_cons'] at hchain
        refine ih hchain.2 ?_ p hp
        intro r hr
        have := hchain.1 r hr
        unfold gapR at this
        linarith [TIME_MIN_PRECISION_pos]

theorem spacing_of_sorted_pairwise {l : List Point}
    (hs : List.Sorted tupleLe l) (hp : List.Pairwise sepR l)
    (hnn : ∀ p ∈ l, (0:ℚ) ≤ p.1) : spacing_invariant l := by
  constructor
  · rw [List.chain'_iff_pairwise]
    have := hs.and hp
    refine this.imp (fun {p q} hpq => ?_)
    obtain ⟨hle, hsep⟩ := hpq
    unfold sepR at hsep
    unfold gapR
    rcases hle with hlt | ⟨heq, _⟩
    · rw [abs_sub_comm, abs_of_nonneg (by linarith)] at hsep
      linarith
    · rw [heq, sub_self, abs_zero] at hsep
      linarith [TIME_MIN_PRECISION_pos]
  · intro p hp
    exact hnn p (List.mem_of_mem_head? hp)

theorem spacing_of_sort {l : List Point} (hp : List.Pairwise sepR l)
    (hnn : ∀ p ∈ l, (0:ℚ) ≤ p.1) : spacing_invariant (sortPoints l) := by
  have hperm := sortPoints_perm l
  refine spacing_of_sorted_pairwise (sortPoints_sorted l) ?_ ?_
  · exact (hperm.pairwise_iff (fun h => sepR_symm h)).mpr hp
  · intro p hpmem
    exact hnn p (hperm.mem_iff.mp hpmem)

theorem spacing_sublist {l l' : List Point} (hsub : l'.Sublist l)
    (h : spacing_invariant l) : spacing_invariant l' := by
  constructor
  · exact h.1.sublist hsub
  · intro p hp
    exact spacing_all_nonneg h p (hsub.mem (List.mem_of_mem_head? hp))

theorem delete_points_sublist (points : List Point) (sel : List ℕ) :
    (delete_points points sel).Sublist points := by
  unfold delete_points
  generalize List.insertionSort (fun a b : ℕ => b ≤ a) sel.dedup = ordered
  induction ordered generalizing points with
  | nil => exact List.Sublist.refl points
  | cons i rest ih =>
      simp only [List.foldl_cons]
      refine (ih _).trans ?_
      split
      · exact List.eraseIdx_sublist points i
      · exact List.Sublist.refl points

theorem check_time_conflict_false_at {points : List Point} {nt : ℚ}
    {ex : Option ℕ} (h : check_time_conflict points nt ex = false) :
    ∀ j (hj : j < points.length), ex ≠ some j →
      TIME_MIN_PRECISION * 2 ≤ |points[j].1 - nt| := by
  intro j hj hex
  have hget? : points[j]? = some points[j] := List.getElem?_eq_getElem hj
  have hmem : (j, points[j]) ∈ points.enum := List.mk_mem_enum_iff_getElem?.mpr hget?
  unfold check_time_conflict at h
  rw [List.any_eq_false] at h
  have hpred := h (j, points[j]) hmem
  rw [if_neg hex] at hpred
  simp only [decide_eq_true_eq] at hpred
  exact le_of_not_lt hpred

theorem pairwise_sepR_append {points : List Point} {x : Point}
    (hp : List.Pairwise sepR points) (hsep : ∀ p ∈ points, sepR p x) :
    List.Pairwise sepR (points ++ [x]) := by
  rw [List.pairwise_append]
  refine ⟨hp, List.pairwise_singleton _ _, ?_⟩
  intro a ha b hb
  rw [List.mem_singleton] at hb
  subst hb
  exact hsep a ha

theorem pairwise_sepR_set {points : List Point} {i : ℕ} {x : Point}
    (hp : List.Pairwise sepR points)
    (hsep : ∀ j (hj : j < points.length), j ≠ i → sepR points[j] x) :
    List.Pairwise sepR (points.set i x) := by
  rw [List.pairwise_iff_getElem] at hp ⊢
  intro a b ha hb hab
  simp only [List.length_set] at ha hb
  have hsa := List.getElem_set (l := points) (m := i) (n := a) (a := x)
  have hsb := List.getElem_set (l := points) (m := i) (n := b) (a := x)
  by_cases hai : i = a <;> by_cases hbi : i = b
  · omega
  · rw [hsa (by simpa using ha), hsb (by simpa using hb), if_pos hai, if_neg hbi]
    exact sepR_symm (hsep b hb (fun hbe => hbi (hbe ▸ rfl)))
  · rw [hsa (by simpa using ha), hsb (by simpa using hb), if_neg hai, if_pos hbi]
    exact hsep a ha (fun hae => hai (hae ▸ rfl))
  · rw [hsa (by simpa using ha), hsb (by simpa using hb), if_neg hai, if_neg hbi]
    exact hp a b ha hb hab

theorem mem_set_cases {l : List Point} {i : ℕ} {x p : Point}
    (hp : p ∈ l.set i x) : p = x ∨ p ∈ l := by
  obtain ⟨j, hj, hget⟩ := List.mem_iff_getElem.mp hp
  rw [List.getElem_set] at hget
  by_cases hij : i = j
  · rw [if_pos hij] at hget
    exact Or.inl hget.symm
  · rw [if_neg hij] at hget
    refine Or.inr ?_
    rw [List.length_set] at hj
    exact hget ▸ List.getElem_mem hj

theorem sepR_of_two_eps {p : Point} {t : ℚ}
    (h : TIME_MIN_PRECISION * 2 ≤ |p.1 - t|) (v : ℚ) : sepR p (t, v) := by
  unfold sepR
  have := TIME_MIN_PRECISION_pos
  calc TIME_MIN_PRECISION ≤ TIME_MIN_PRECISION * 2 := by linarith
  _ ≤ |p.1 - t| := h

theorem le_getLast_of_sorted {l : List Point} (hs : List.Sorted timeLe l) :
    ∀ p ∈ l, ∀ lp ∈ l.getLast?, p.1 ≤ lp.1 := by
  induction l with
  | nil => intro p hp; simp at hp
  | cons q rest ih =>
      intro p hp lp hlast
      rw [List.sorted_cons] at hs
      cases rest with
      | nil =>
          rw [List.mem_singleton] at hp
          subst hp
          simp only [List.getLast?_singleton, Option.mem_def,
            Option.some.injEq] at hlast
          exact hlast ▸ le_refl _
      | cons r rs =>
          rw [List.getLast?_cons_cons] at hlast
          rcases List.mem_cons.mp hp with rfl | hp
          · have hqr : timeLe p r := hs.1 r (List.mem_cons_self r rs)
            exact le_trans hqr (ih hs.2 r (List.mem_cons_self r rs) lp hlast)
          · exact ih hs.2 p hp lp hlast

/-- C1 (amended): the spacing invariant — consecutive times at least
`TIME_MIN_PRECISION` apart and a nonnegative first time — is preserved by
`add_point`, `update_point`, `delete_points` and `quick_add_point`.  (It is
not guaranteed by placement commit, file load, or squeezed drag release,
which insert candidate points without `ensure_min_spacing`.) -/
theorem store_ops_preserve_spacing :
    (∀ points t v pts idx, spacing_invariant points →
      add_point points t v = .ok (pts, idx) → spacing_invariant pts) ∧
    (∀ points i t v pts oidx, spacing_invariant points →
      update_point points i t v = .ok (pts, oidx) → spacing_invariant pts) ∧
    (∀ points sel, spacing_invariant points →
      spacing_invariant (delete_points points sel)) ∧
    (∀ points, spacing_invariant points →
      spacing_invariant (quick_add_point points).1) := by
  refine ⟨?_, ?_, ?_, ?_⟩
  · -- add_point
    intro points t v pts idx hinv hok
    unfold add_point at hok
    split_ifs at hok with h1 h2
    obtain ⟨hpts, _⟩ : sortPoints (points ++ [(t, v)]) = pts ∧ _ :=
      by simpa using hok
    subst hpts
    refine spacing_of_sort ?_ ?_
    · refine pairwise_sepR_append (pairwise_sepR_of_spacing hinv) ?_
      intro p hp
      exact sepR_of_two_eps
        (check_time_conflict_none_false (Bool.eq_false_iff.mpr h2 ▸ rfl) p hp) v
    · intro p hp
      rcases List.mem_append.mp hp with hp | hp
      · exact spacing_all_nonneg hinv p hp
      · rw [List.mem_singleton] at hp
        subst hp
        exact le_of_not_lt h1
  · -- update_point
    intro points i t v pts oidx hinv hok
    unfold update_point at hok
    split_ifs at hok with h1
    rcases hget : points[i]? with _ | old
    · rw [hget] at hok
      obtain ⟨hpts, _⟩ : points = pts ∧ _ := by simpa using hok
      exact hpts ▸ hinv
    · rw [hget] at hok
      simp only [] at hok
      split_ifs at hok with h2
      obtain ⟨hpts, _⟩ : sortPoints (points.set i (t, v)) = pts ∧ _ :=
        by simpa using hok
      subst hpts
      have hi : i < points.length := by
        by_contra hlen
        rw [List.getElem?_eq_none (le_of_not_lt hlen)] at hget
        exact Option.noConfusion hget
      have hold : points[i] = old := by
        have := List.getElem?_eq_getElem hi
        rw [hget] at this
        exact Option.some.inj this.symm
      have hsep : ∀ j (hj : j < points.length), j ≠ i → sepR points[j] (t, v) := by
        intro j hj hji
        by_cases hteq : t = old.1
        · have hpair := List.pairwise_iff_getElem.mp (pairwise_sepR_of_spacing hinv)
          rcases Nat.lt_or_ge j i with hlt | hge
          · have := hpair j i hj hi hlt
            unfold sepR at this ⊢
            rw [hold] at this
            show TIME_MIN_PRECISION ≤ |points[j].1 - t|
            rw [hteq]
            exact this
          · have hilt : i < j := lt_of_le_of_ne hge (Ne.symm hji)
            have := hpair i j hi hj hilt
            unfold sepR at this ⊢
            rw [hold] at this
            rw [abs_sub_comm] at this
            show TIME_MIN_PRECISION ≤ |points[j].1 - t|
            rw [hteq]
            exact this
        · have hcf : check_time_conflict points t (some i) = false := by
            by_contra hcc
            exact h2 ⟨hteq, Bool.not_eq_false _ ▸ hcc⟩
          refine sepR_of_two_eps ?_ v
          exact check_time_conflict_false_at hcf j hj
            (fun hsome => hji (Option.some.inj hsome).symm)
      refine spacing_of_sort (pairwise_sepR_set (pairwise_sepR_of_spacing hinv) hsep) ?_
      intro p hp
      rcases mem_set_cases hp with rfl | hp
      · exact le_of_not_lt h1
      · exact spacing_all_nonneg hinv p hp
  · -- delete_points
    intro points sel hinv
    exact spacing_sublist (delete_points_sublist points sel) hinv
  · -- quick_add_point
    intro points hinv
    unfold quick_add_point
    rcases hlast : points.getLast? with _ | lp
    · have hnil : points = [] := List.getLast?_eq_none_iff.mp hlast
      subst hnil
      refine spacing_of_sort (List.pairwise_singleton _ _) ?_
      intro p hp
      rw [List.nil_append, List.mem_singleton] at hp
      subst hp
      exact le_refl 0
    · have hmem_lp : lp ∈ points := List.mem_of_mem_getLast? hlast
      have hlp0 : (0:ℚ) ≤ lp.1 := spacing_all_nonneg hinv lp hmem_lp
      refine spacing_of_sort ?_ ?_
      · refine pairwise_sepR_append (pairwise_sepR_of_spacing hinv) ?_
        intro p hp
        have hple : p.1 ≤ lp.1 :=
          le_getLast_of_sorted (spacing_invariant_sorted hinv.1) p hp lp hlast
        unfold sepR
        rw [abs_sub_comm]
        have h13 : TIME_MIN_PRECISION ≤ 1 / 10 ^ 3 := by
          unfold TIME_MIN_PRECISION; norm_num
        rw [abs_of_nonneg (by simpa using by linarith)]
        simp only []
        linarith
      · intro p hp
        rcases List.mem_append.mp hp with hp | hp
        · exact spacing_all_nonneg hinv p hp
        · rw [List.mem_singleton] at hp
          subst hp
          have h13 : (0:ℚ) ≤ 1 / 10 ^ 3 := by norm_num
          simpa using by linarith

/-- C1 (witness): the `delete_points` branch of the preservation theorem at
the empty store. -/
theorem store_ops_preserve_spacing_witness :
    spacing_invariant ([] : List Point) ∧
    spacing_invariant (delete_points [] []) :=
  ⟨⟨by simp, by simp⟩, store_ops_preserve_spacing.2.2.1 [] [] ⟨by simp, by simp⟩⟩

/-- C1 (counterexample): committing the placement list `[(0, 0)]` onto the
store `[(0, 0)]` at cursor time `0` duplicates the time `0`, so the waveform
produced by placement commit violates the spacing invariant — the commit
path appends the raw candidate points without `ensure_min_spacing`. -/
theorem placement_commit_spacing_counterexample :
    ¬ spacing_invariant (handle_placement_commit [(0, 0)] [(0, 0)] 0).1 := by
  intro hinv
  have hpts : (handle_placement_commit [(0, 0)] [(0, 0)] 0).1 =
      [((0:ℚ), (0:ℚ)), (0, 0)] := by
    unfold handle_placement_commit
    rw [if_neg (by simp)]
    have htuple : tupleLe (0, 0) ((max 0 0 + 0, 0) : Point) := by
      unfold tupleLe
      simp
    simp only [sortPoints, List.map, List.cons_append, List.nil_append,
      List.insertionSort, List.orderedInsert, if_pos htuple]
    norm_num
  rw [hpts] at hinv
  have := hinv.1
  rw [List.chain'_cons] at this
  have hgap := this.1
  unfold gapR at hgap
  rw [TIME_MIN_PRECISION] at hgap
  norm_num at hgap

/-- C2: starting from the store `[(0,0),(2e-12,0)]` with point `0` dragged so
that its proposed (unclamped) time is `1.5e-12` (drag delta `+1.5e-12`), the
release pipeline (quantize to the `TIME_MIN_PRECISION` grid — banker
rounding sends `1.5` to `2` — run `enforce_min_dt_for_drag`, re-sort) leaves
point `0` at exactly `1e-12`, one `TIME_MIN_PRECISION` short of its
non-dragged neighbour, and leaves point `1` unchanged at `2e-12`. -/
theorem drag_release_example :
    on_drag_release
      (drag_motion_update [(0, 0), (2 / 10 ^ 12, 0)] [(0, ((0:ℚ), (0:ℚ)))]
        (15 / 10 ^ 13) 0)
      [0] DEFAULT_DRAG_PRECISION =
    ([(1 / 10 ^ 12, 0), (2 / 10 ^ 12, 0)], [0]) := by
  have hmotion : drag_motion_update [(0, 0), (2 / 10 ^ 12, 0)]
      [(0, ((0:ℚ), (0:ℚ)))] (15 / 10 ^ 13) 0 =
      [(15 / 10 ^ 13, 0), (2 / 10 ^ 12, 0)] := by
    norm_num [drag_motion_update, max_def]
  have hquant : quantize_drag_point DEFAULT_DRAG_PRECISION (15 / 10 ^ 13, 0) =
      (2 / 10 ^ 12, 0) := by
    norm_num [quantize_drag_point, pyRound, TIME_MIN_PRECISION,
      DEFAULT_DRAG_PRECISION, max_def]
  have henf : enforce_min_dt_for_drag
      [((2:ℚ) / 10 ^ 12, (0:ℚ)), (2 / 10 ^ 12, 0)] [0] =
      [(1 / 10 ^ 12, 0), (2 / 10 ^ 12, 0)] := by
    norm_num [enforce_min_dt_for_drag, List.enum, List.enumFrom, bisect_left,
      sortByTime, List.insertionSort, List.orderedInsert, dragSweep, dragLe,
      TIME_MIN_PRECISION, max_def]
  rw [hmotion]
  unfold on_drag_release
  simp only [List.foldl_cons, List.foldl_nil, List.getElem?_cons_zero]
  rw [hquant]
  simp only [List.set_cons_zero]
  rw [henf]
  norm_num [sortPoints, List.insertionSort, List.orderedInsert, tupleLe,
    py_index]
  norm_num [List.filterMap_cons, Prod.mk.injEq]

/-- C6: waveform load is atomic — on read failure or a missing `"points"`
key the in-memory waveform and viewport are unchanged and the matching error
is surfaced (`MissingField` when the key is absent); on success the entire
waveform is replaced by the file contents (no partial merge) and the
viewport is auto-fitted via `zoom_to_all_points`. -/
theorem load_waveform_spec :
    (∀ points c input, (load_waveform_from_file points c input).2 ≠ .success →
      (load_waveform_from_file points c input).1 = (points, c)) ∧
    (∀ points c,
      (load_waveform_from_file points c .missingPoints).2 = .missingField) ∧
    (∀ points c ps, load_waveform_from_file points c (.ok ps) =
      ((ps, zoom_to_all_points ps c), .success)) := by
  refine ⟨?_, ?_, ?_⟩
  · intro points c input hfail
    cases input with
    | ioFailure => rfl
    | missingPoints => rfl
    | ok ps => exact absurd rfl hfail
  · intro points c; rfl
  · intro points c ps; rfl

/-- C6 (witness): the missing-field branch at a concrete store and
viewport. -/
theorem load_waveform_spec_witness :
    (load_waveform_from_file [((0:ℚ), (0:ℚ))] ⟨0, 1, 0, 1⟩
        LoadInput.missingPoints).2 ≠ LoadOutcome.success ∧
    (load_waveform_from_file [((0:ℚ), (0:ℚ))] ⟨0, 1, 0, 1⟩
        LoadInput.missingPoints).1 = ([((0:ℚ), (0:ℚ))], ⟨0, 1, 0, 1⟩) :=
  ⟨by decide, load_waveform_spec.1 [((0:ℚ), (0:ℚ))] ⟨0, 1, 0, 1⟩
    LoadInput.missingPoints (by decide)⟩

/-- C7: `zoom_to_all_points` pads the data box (with 0 adjoined on X) by 5%
of the X range and 10% of the Y range and then applies the negative-axis
clamp: for `[(0,0),(1,10),(2,-10)]` it yields exactly
`x_min = -0.1, x_max = 2.1, y_min = -12, y_max = 12` (the clamp does not
fire), and for points spanning `[-1, 2]` the negative part of the resulting
X range is at most 5% of the range. -/
theorem zoom_to_fit_spec :
    (∀ c, zoom_to_all_points [(0, 0), (1, 10), (2, -10)] c =
      { x_min := -(1 / 10), x_max := 21 / 10, y_min := -12, y_max := 12 }) ∧
    (∀ c, 0 < (zoom_to_all_points [(-1, 0), (2, 0)] c).x_max ∧
      (zoom_to_all_points [(-1, 0), (2, 0)] c).x_min < 0 ∧
      -(zoom_to_all_points [(-1, 0), (2, 0)] c).x_min ≤
        ((zoom_to_all_points [(-1, 0), (2, 0)] c).x_max -
          (zoom_to_all_points [(-1, 0), (2, 0)] c).x_min) * (5 / 100)) := by
  constructor
  · intro c
    norm_num [zoom_to_all_points, list_min, list_max,
      enforce_negative_axis_limit, max_def, min_def, abs_of_nonneg,
      abs_of_nonpos]
  · intro c
    have h2 : zoom_to_all_points [(-1, 0), (2, 0)] c =
        { x_min := -(43 / 380), x_max := 43 / 20, y_min := -(1 / 10),
          y_max := 1 / 10 } := by
      norm_num [zoom_to_all_points, list_min, list_max,
        enforce_negative_axis_limit, max_def, min_def, abs_of_nonneg,
        abs_of_nonpos]
    rw [h2]
    norm_num

theorem decimateGo_nil (c : CanvasGeom) (step : ℚ) (cap : ℕ)
    (last : Option ℚ) (acc : List Point) :
    decimateGo c step cap [] last acc = acc := rfl

theorem decimateGo_cons_none (c : CanvasGeom) (step : ℚ) (cap : ℕ)
    (t v : ℚ) (rest : List Point) (acc : List Point) :
    decimateGo c step cap ((t, v) :: rest) none acc =
      if cap < (acc ++ [(t, v)]).length then acc ++ [(t, v)]
      else decimateGo c step cap rest (some (world_to_screen c t v).1)
        (acc ++ [(t, v)]) := rfl

theorem decimateGo_cons_keep (c : CanvasGeom) (step : ℚ) (cap : ℕ)
    (t v l : ℚ) (rest : List Point) (acc : List Point)
    (h : step ≤ |(world_to_screen c t v).1 - l|) :
    decimateGo c step cap ((t, v) :: rest) (some l) acc =
      if cap < (acc ++ [(t, v)]).length then acc ++ [(t, v)]
      else decimateGo c step cap rest (some (world_to_screen c t v).1)
        (acc ++ [(t, v)]) := by
  simp only [decimateGo, decide_eq_true h, if_true]

theorem decimateGo_cons_skip (c : CanvasGeom) (step : ℚ) (cap : ℕ)
    (t v l : ℚ) (rest : List Point) (acc : List Point)
    (h : ¬ step ≤ |(world_to_screen c t v).1 - l|) :
    decimateGo c step cap ((t, v) :: rest) (some l) acc =
      if cap < acc.length then acc
      else decimateGo c step cap rest (some l) acc := by
  simp only [decimateGo, decide_eq_false h, Bool.false_eq_true, if_false]

theorem decimateGo_length_le (c : CanvasGeom) (step : ℚ) (cap : ℕ) :
    ∀ (line : List Point) (last : Option ℚ) (acc : List Point),
      acc.length ≤ cap →
      (decimateGo c step cap line last acc).length ≤ cap + 1 := by
  intro line
  induction line with
  | nil =>
      intro last acc hacc
      rw [decimateGo_nil]
      omega
  | cons p rest ih =>
      intro last acc hacc
      obtain ⟨t, v⟩ := p
      have hstep : ∀ (acc2 : List Point) (last2 : Option ℚ),
          acc2.length = acc.length + 1 →
          (if cap < acc2.length then acc2
           else decimateGo c step cap rest last2 acc2).length ≤ cap + 1 := by
        intro acc2 last2 hlen
        by_cases hbr : cap < acc2.length
        · rw [if_pos hbr]; omega
        · rw [if_neg hbr]; exact ih last2 acc2 (by omega)
      cases last with
      | none =>
          rw [decimateGo_cons_none]
          exact hstep _ _ (by simp)
      | some l =>
          by_cases hk : step ≤ |(world_to_screen c t v).1 - l|
          · rw [decimateGo_cons_keep c step cap t v l rest acc hk]
            exact hstep _ _ (by simp)
          · rw [decimateGo_cons_skip c step cap t v l rest acc hk]
            by_cases hbr : cap < acc.length
            · rw [if_pos hbr]; omega
            · rw [if_neg hbr]; exact ih _ acc hacc

theorem decimateGo_chain (c : CanvasGeom) (step : ℚ) (cap : ℕ) :
    ∀ (line : List Point) (last : Option ℚ) (acc : List Point),
      List.Chain' (fun p q : Point => step ≤
        |(world_to_screen c q.1 q.2).1 - (world_to_screen c p.1 p.2).1|) acc →
      (last = none → acc = []) →
      (∀ l, last = some l → ∃ h : acc ≠ [],
        (world_to_screen c (acc.getLast h).1 (acc.getLast h).2).1 = l) →
      List.Chain' (fun p q : Point => step ≤
        |(world_to_screen c q.1 q.2).1 - (world_to_screen c p.1 p.2).1|)
        (decimateGo c step cap line last acc) := by
  intro line
  induction line with
  | nil =>
      intro last acc hchain _ _
      rw [decimateGo_nil]
      exact hchain
  | cons p rest ih =>
      intro last acc hchain hnone hsome
      obtain ⟨t, v⟩ := p
      have hstep : ∀ (acc2 : List Point),
          List.Chain' (fun p q : Point => step ≤
            |(world_to_screen c q.1 q.2).1 - (world_to_screen c p.1 p.2).1|)
            acc2 →
          acc2.getLast? = some (t, v) →
          List.Chain' (fun p q : Point => step ≤
            |(world_to_screen c q.1 q.2).1 - (world_to_screen c p.1 p.2).1|)
            (if cap < acc2.length then acc2
             else decimateGo c step cap rest
               (some (world_to_screen c t v).1) acc2) := by
        intro acc2 hchain2 hlast2
        by_cases hbr : cap < acc2.length
        · rw [if_pos hbr]; exact hchain2
        · rw [if_neg hbr]
          have hne2 : acc2 ≠ [] := by
            intro hnil; rw [hnil] at hlast2; simp at hlast2
          refine ih _ _ hchain2 (by intro h; exact absurd h (by simp)) ?_
          intro l2 hl2
          refine ⟨hne2, ?_⟩
          have : acc2.getLast hne2 = (t, v) := by
            rw [List.getLast?_eq_getLast acc2 hne2] at hlast2
            exact Option.some.inj hlast2
          rw [this]
          show (world_to_screen c t v).1 = l2
          exact Option.some.inj hl2
      cases last with
      | none =>
          have hacc : acc = [] := hnone rfl
          subst hacc
          rw [decimateGo_cons_none]
          exact hstep [(t, v)] (List.chain'_singleton _) rfl
      | some l =>
          obtain ⟨hne, hlast⟩ := hsome l rfl
          by_cases hk : step ≤ |(world_to_screen c t v).1 - l|
          · rw [decimateGo_cons_keep c step cap t v l rest acc hk]
            refine hstep (acc ++ [(t, v)]) ?_ (by simp)
            rw [List.chain'_append]
            refine ⟨hchain, List.chain'_singleton _, ?_⟩
            intro x hx y hy
            rw [List.getLast?_eq_getLast acc hne] at hx
            obtain rfl : acc.getLast hne = x := Option.some.inj hx
            simp only [List.head?_cons, Option.mem_def, Option.some.injEq] at hy
            subst hy
            rw [hlast]
            exact hk
          · rw [decimateGo_cons_skip c step cap t v l rest acc hk]
            by_cases hbr : cap < acc.length
            · rw [if_pos hbr]; exact hchain
            · rw [if_neg hbr]
              refine ih _ _ hchain (by simp) ?_
              intro l2 hl2
              obtain rfl : l = l2 := Option.some.inj hl2
              exact ⟨hne, hlast⟩

/-- C9 (amended): the preview decimation keeps a point only when its screen-X
distance from the last kept point is at least the pixel step (consecutive
kept points are at least `max 1 _lod_pixel_step` pixels apart in screen X),
and it stops once the kept count exceeds the cap, so the decimated list
never contains more than `_max_preview_points + 1 = 3001` points. -/
theorem decimate_preview_spec :
    (∀ (c : CanvasGeom) (line : List Point),
      (decimate_preview c line).length ≤ MAX_PREVIEW_POINTS + 1) ∧
    (∀ (c : CanvasGeom) (line : List Point),
      List.Chain' (fun p q : Point => max 1 LOD_PIXEL_STEP ≤
        |(world_to_screen c q.1 q.2).1 - (world_to_screen c p.1 p.2).1|)
        (decimate_preview c line)) := by
  constructor
  · intro c line
    exact decimateGo_length_le c (max 1 LOD_PIXEL_STEP) MAX_PREVIEW_POINTS
      line none [] (Nat.zero_le _)
  · intro c line
    refine decimateGo_chain c (max 1 LOD_PIXEL_STEP) MAX_PREVIEW_POINTS
      line none [] List.chain'_nil (fun _ => rfl) ?_
    intro l hl
    exact absurd hl (by simp)

theorem c9_sx (q : ℚ) : (world_to_screen c9_canvas q 0).1 = 60 + 2 * q := by
  norm_num [world_to_screen, c9_canvas]
  ring

theorem c9_count : ∀ (cnt a : ℕ) (acc : List Point) (last : Option ℚ),
    acc.length ≤ 3000 →
    (last = none ∨ last = some (58 + 2 * (a:ℚ))) →
    (decimateGo c9_canvas 2 3000
      ((List.range' a cnt).map (fun i : ℕ => ((i : ℚ), 0))) last acc).length =
      min (acc.length + cnt) 3001 := by
  intro cnt
  induction cnt with
  | zero =>
      intro a acc last hacc _
      simp only [List.range'_zero, List.map_nil, decimateGo_nil]
      omega
  | succ cnt ih =>
      intro a acc last hacc hlast
      rw [List.range'_succ, List.map_cons]
      have hkeepeq :
          decimateGo c9_canvas 2 3000
            (((a:ℚ), (0:ℚ)) :: (List.range' (a+1) cnt).map (fun i : ℕ => ((i:ℚ), 0)))
            last acc =
          if 3000 < (acc ++ [((a:ℚ), 0)]).length then acc ++ [((a:ℚ), 0)]
          else decimateGo c9_canvas 2 3000
            ((List.range' (a+1) cnt).map (fun i : ℕ => ((i:ℚ), 0)))
            (some (world_to_screen c9_canvas (a:ℚ) 0).1)
            (acc ++ [((a:ℚ), 0)]) := by
        rcases hlast with rfl | rfl
        · exact decimateGo_cons_none _ _ _ _ _ _ _
        · refine decimateGo_cons_keep _ _ _ _ _ _ _ _ ?_
          rw [c9_sx]
          have : (60 + 2 * (a:ℚ)) - (58 + 2 * (a:ℚ)) = 2 := by ring
          rw [this]
          norm_num
      rw [hkeepeq]
      by_cases hbr : 3000 < (acc ++ [((a:ℚ), 0)]).length
      · rw [if_pos hbr]
        simp only [List.length_append, List.length_singleton] at hbr ⊢
        omega
      · rw [if_neg hbr]
        simp only [List.length_append, List.length_singleton] at hbr
        have := ih (a + 1) (acc ++ [((a:ℚ), 0)])
          (some (world_to_screen c9_canvas (a:ℚ) 0).1)
          (by simp; omega)
          (by
            right
            rw [c9_sx]
            congr 1
            push_cast
            ring)
        rw [this]
        simp only [List.length_append, List.length_singleton]
        omega

/-- C9 (counterexample): with a 6084-pixel-wide canvas viewing `[0, 3002]`,
the 3002 preview points `(0,0) .. (3001,0)` are each 2 screen pixels apart,
every one is kept until the break fires, and the decimated list has 3001
points — more than the stated cap of 3000. -/
theorem decimate_preview_cap_counterexample :
    MAX_PREVIEW_POINTS < (decimate_preview c9_canvas c9_input).length := by
  have hlen : (decimate_preview c9_canvas c9_input).length = 3001 := by
    unfold decimate_preview c9_input
    rw [List.range_eq_range']
    have hstep : max 1 LOD_PIXEL_STEP = 2 := by
      norm_num [LOD_PIXEL_STEP, max_def]
    have hcap : MAX_PREVIEW_POINTS = 3000 := rfl
    rw [hstep, hcap]
    have := c9_count 3002 0 [] none (by simp) (Or.inl rfl)
    simpa using this
  rw [hlen]
  norm_num [MAX_PREVIEW_POINTS]

/-- C8: the square wave generated with `period = 1e-6, t_high = 2e-7,
tr = tf = 1e-8, duration = 1e-6` contains a time sample within `1e-10` of
`2e-7` (the high-to-low transition start), and the triangle wave with
`period = 1e-6, t_rise = 3e-7, duration = 1e-6` contains its peak-value
sample (`offset + amp = 1`) at a time within `1e-10` of `3e-7`. -/
theorem wave_generator_boundaries :
    (∃ p ∈ wave_square none (some (1 / 10 ^ 6)) (some 1) (some 0)
        (some (1 / 10 ^ 6)) none (some (2 / 10 ^ 7)) (some (1 / 10 ^ 8))
        (some (1 / 10 ^ 8)),
      |p.1 - 2 / 10 ^ 7| < 1 / 10 ^ 10) ∧
    (∃ p ∈ wave_triangle none (some (1 / 10 ^ 6)) (some 1) (some 0)
        (some (1 / 10 ^ 6)) none (some (3 / 10 ^ 7)),
      |p.1 - 3 / 10 ^ 7| < 1 / 10 ^ 10 ∧ p.2 = 1) := by
  constructor
  · have hloop : square_loop (1 / 10 ^ 6) (2 / 10 ^ 7) (1 / 10 ^ 8)
        (1 / 10 ^ 8) (1 / 10 ^ 6) 1 0 0 =
        [(0, -1), (1 / 10 ^ 8, 1), (2 / 10 ^ 7, 1), (21 / 10 ^ 8, -1)] := by
      rw [square_loop]
      rw [dif_pos (by constructor <;> norm_num)]
      rw [square_loop]
      rw [dif_neg (by norm_num)]
      norm_num [min_def]
    have harg : wave_square none (some (1 / 10 ^ 6)) (some 1) (some 0)
        (some (1 / 10 ^ 6)) none (some (2 / 10 ^ 7)) (some (1 / 10 ^ 8))
        (some (1 / 10 ^ 8)) =
        normalize_wave (square_loop (1 / 10 ^ 6) (2 / 10 ^ 7) (1 / 10 ^ 8)
          (1 / 10 ^ 8) (1 / 10 ^ 6) 1 0 0) := by
      norm_num [wave_square, resolve_period, resolve_duration, resolve_freq,
        clamp01, min_def, max_def]
    have hnorm : normalize_wave
        [((0:ℚ), (-1:ℚ)), (1 / 10 ^ 8, 1), (2 / 10 ^ 7, 1), (21 / 10 ^ 8, -1)] =
        [(0, -1), (1 / 10 ^ 8, 1), (2 / 10 ^ 7, 1), (21 / 10 ^ 8, -1)] := by
      norm_num [normalize_wave, sortByTime, List.insertionSort,
        List.orderedInsert, timeLe]
    refine ⟨(2 / 10 ^ 7, 1), ?_, by norm_num⟩
    rw [harg, hloop, hnorm]
    norm_num
  · have hloop : triangle_loop (1 / 10 ^ 6) (3 / 10 ^ 7) (1 / 10 ^ 6) 1 0 0 =
        [(0, -1), (3 / 10 ^ 7, 1), (1 / 10 ^ 6, -1)] := by
      rw [triangle_loop]
      rw [dif_pos (by constructor <;> norm_num)]
      rw [triangle_loop]
      rw [dif_neg (by norm_num)]
      norm_num
    have harg : wave_triangle none (some (1 / 10 ^ 6)) (some 1) (some 0)
        (some (1 / 10 ^ 6)) none (some (3 / 10 ^ 7)) =
        normalize_wave (triangle_loop (1 / 10 ^ 6) (3 / 10 ^ 7) (1 / 10 ^ 6)
          1 0 0) := by
      norm_num [wave_triangle, resolve_period, resolve_duration, resolve_freq,
        clamp01, min_def, max_def]
    have hnorm : normalize_wave
        [((0:ℚ), (-1:ℚ)), (3 / 10 ^ 7, 1), (1 / 10 ^ 6, -1)] =
        [(0, -1), (3 / 10 ^ 7, 1), (1 / 10 ^ 6, -1)] := by
      norm_num [normalize_wave, sortByTime, List.insertionSort,
        List.orderedInsert, timeLe]
    refine ⟨(3 / 10 ^ 7, 1), ?_, by norm_num, rfl⟩
    rw [harg, hloop, hnorm]
    norm_num

theorem isDigitChar_digitChar (d : ℕ) : isDigitChar (digitChar d) = true := by
  rcases d with _|_|_|_|_|_|_|_|_|_|d
  all_goals first
    | decide
    | exact (by decide : isDigitChar ('9' : Char) = true)

theorem digitChar_ne_dot (d : ℕ) : digitChar d ≠ '.' := by
  rcases d with _|_|_|_|_|_|_|_|_|_|d
  all_goals first
    | decide
    | exact (by decide : ('9' : Char) ≠ '.')

theorem digitChar_ne_minus (d : ℕ) : digitChar d ≠ '-' := by
  rcases d with _|_|_|_|_|_|_|_|_|_|d
  all_goals first
    | decide
    | exact (by decide : ('9' : Char) ≠ '-')

theorem digitChar_ne_plus (d : ℕ) : digitChar d ≠ '+' := by
  rcases d with _|_|_|_|_|_|_|_|_|_|d
  all_goals first
    | decide
    | exact (by decide : ('9' : Char) ≠ '+')

theorem digitChar_not_ws (d : ℕ) : (digitChar d).isWhitespace = false := by
  rcases d with _|_|_|_|_|_|_|_|_|_|d
  all_goals first
    | decide
    | exact (by decide : ('9' : Char).isWhitespace = false)

theorem digitChar_beq_zero (d : ℕ) : (digitChar d == '0') = (d == 0) := by
  rcases d with _|_|_|_|_|_|_|_|_|_|d
  all_goals first
    | decide
    | rfl

theorem digitVal_digitChar {d : ℕ} (h : d < 10) : digitVal (digitChar d) = d := by
  rcases d with _|_|_|_|_|_|_|_|_|_|d
  · decide
  · decide
  · decide
  · decide
  · decide
  · decide
  · decide
  · decide
  · decide
  · decide
  · omega

theorem digitsVal_natDigitsAux :
    ∀ (fuel n : ℕ), n ≤ fuel → digitsVal (natDigitsAux fuel n) = n := by
  intro fuel
  induction fuel with
  | zero =>
      intro n hn
      obtain rfl : n = 0 := Nat.le_zero.mp hn
      rfl
  | succ fuel ih =>
      intro n hn
      cases n with
      | zero => rfl
      | succ m =>
          simp only [natDigitsAux, digitsVal]
          have hdiv : (m + 1) / 10 ≤ fuel := by
            have := Nat.div_lt_self (Nat.succ_pos m) (by norm_num : 1 < 10)
            omega
          rw [ih _ hdiv]
          exact Nat.mod_add_div (m + 1) 10

theorem natDigitsAux_lt :
    ∀ (fuel n : ℕ), ∀ d ∈ natDigitsAux fuel n, d < 10 := by
  intro fuel
  induction fuel with
  | zero => intro n d hd; simp [natDigitsAux] at hd
  | succ fuel ih =>
      intro n d hd
      cases n with
      | zero => simp [natDigitsAux] at hd
      | succ m =>
          simp only [natDigitsAux] at hd
          rcases List.mem_cons.mp hd with rfl | hd
          · exact Nat.mod_lt _ (by norm_num)
          · exact ih _ d hd

theorem natDigitsAux_length :
    ∀ (fuel n k : ℕ), n < 10 ^ k → (natDigitsAux fuel n).length ≤ k := by
  intro fuel
  induction fuel with
  | zero => intro n k _; simp [natDigitsAux]
  | succ fuel ih =>
      intro n k hk
      cases n with
      | zero => simp [natDigitsAux]
      | succ m =>
          cases k with
          | zero => simp at hk
          | succ k' =>
              simp only [natDigitsAux, List.length_cons]
              have hdivk : (m + 1) / 10 < 10 ^ k' := by
                rw [Nat.div_lt_iff_lt_mul (by norm_num : 0 < 10)]
                calc m + 1 < 10 ^ (k' + 1) := hk
                _ = 10 ^ k' * 10 := by ring
              have := ih ((m + 1) / 10) k' hdivk
              omega

theorem foldr_digitsVal (l : List ℕ) :
    l.foldr (fun d a => a * 10 + d) 0 = digitsVal l := by
  induction l with
  | nil => rfl
  | cons d ds ih => simp [digitsVal, ih]; ring

theorem msbVal_natDigitsM (n : ℕ) : msbVal (natDigitsM n) = n := by
  cases n with
  | zero => rfl
  | succ m =>
      have hd : natDigitsM (m + 1) = (natDigitsAux (m + 1) (m + 1)).reverse := rfl
      rw [hd]
      unfold msbVal
      simp only [List.foldl_reverse]
      rw [foldr_digitsVal]
      exact digitsVal_natDigitsAux (m + 1) (m + 1) (le_refl _)

theorem natDigitsM_ne_nil (n : ℕ) : natDigitsM n ≠ [] := by
  cases n with
  | zero => simp [natDigitsM]
  | succ m =>
      have hd : natDigitsM (m + 1) = (natDigitsAux (m + 1) (m + 1)).reverse := rfl
      rw [hd]
      simp only [natDigitsAux]
      simp

theorem natDigitsM_lt (n : ℕ) : ∀ d ∈ natDigitsM n, d < 10 := by
  cases n with
  | zero => intro d hd; simp [natDigitsM] at hd; omega
  | succ m =>
      intro d hd
      have he : natDigitsM (m + 1) = (natDigitsAux (m + 1) (m + 1)).reverse := rfl
      rw [he, List.mem_reverse] at hd
      exact natDigitsAux_lt _ _ d hd

theorem natDigitsM_length_le {n k : ℕ} (h : n < 10 ^ k) (hk : 1 ≤ k) :
    (natDigitsM n).length ≤ k := by
  cases n with
  | zero => simpa [natDigitsM] using hk
  | succ m =>
      have he : natDigitsM (m + 1) = (natDigitsAux (m + 1) (m + 1)).reverse := rfl
      rw [he, List.length_reverse]
      exact natDigitsAux_length _ _ _ h

theorem foldl_msb_acc (z : ℕ) : ∀ (a : ℕ),
    (List.replicate z 0).foldl (fun a d => a * 10 + d) a = a * 10 ^ z := by
  induction z with
  | zero => intro a; simp
  | succ z ih =>
      intro a
      rw [List.replicate_succ, List.foldl_cons, ih]
      ring

theorem msbVal_append_replicate (A : List ℕ) (z : ℕ) :
    msbVal (A ++ List.replicate z 0) = msbVal A * 10 ^ z := by
  unfold msbVal
  rw [List.foldl_append]
  exact foldl_msb_acc z _

theorem msbVal_replicate_prepend (m : ℕ) (ds : List ℕ) :
    msbVal (List.replicate m 0 ++ ds) = msbVal ds := by
  unfold msbVal
  rw [List.foldl_append]
  have : (List.replicate m 0).foldl (fun a d => a * 10 + d) 0 = 0 := by
    rw [foldl_msb_acc]
    ring
  rw [this]

theorem msbVal_padDigits (k : ℕ) (ds : List ℕ) :
    msbVal (padDigits k ds) = msbVal ds := msbVal_replicate_prepend _ _

theorem padDigits_lt (k : ℕ) (ds : List ℕ) (h : ∀ d ∈ ds, d < 10) :
    ∀ d ∈ padDigits k ds, d < 10 := by
  intro d hd
  rcases List.mem_append.mp hd with hd | hd
  · rw [List.eq_of_mem_replicate hd]; omega
  · exact h d hd

theorem stripTZ_decomp (ds : List ℕ) :
    ∃ z, ds = stripTrailingZeros ds ++ List.replicate z 0 := by
  refine ⟨(ds.reverse.takeWhile (fun d => d == 0)).length, ?_⟩
  unfold stripTrailingZeros
  have h1 : ds.reverse.takeWhile (fun d => d == 0) =
      List.replicate (ds.reverse.takeWhile (fun d => d == 0)).length 0 := by
    apply List.eq_replicate_of_mem
    intro b hb
    have := List.mem_takeWhile_imp hb
    simpa using this
  calc ds = ds.reverse.reverse := (List.reverse_reverse ds).symm
  _ = (ds.reverse.takeWhile (fun d => d == 0) ++
        ds.reverse.dropWhile (fun d => d == 0)).reverse := by
        rw [List.takeWhile_append_dropWhile]
  _ = (ds.reverse.dropWhile (fun d => d == 0)).reverse ++
        (ds.reverse.takeWhile (fun d => d == 0)).reverse := by
        rw [List.reverse_append]
  _ = _ := by
        rw [h1, List.reverse_replicate]
        simp

theorem head?_dropWhile_false {α : Type} (p : α → Bool) :
    ∀ (l : List α) (a : α), (l.dropWhile p).head? = some a → p a = false := by
  intro l
  induction l with
  | nil => intro a ha; simp at ha
  | cons x xs ih =>
      intro a ha
      rw [List.dropWhile_cons] at ha
      split at ha
      · exact ih a ha
      · simp only [List.head?_cons, Option.some.injEq] at ha
        subst ha
        rename_i hpx
        simpa using hpx

theorem stripTZ_getLast_ne {ds : List ℕ} {x : ℕ}
    (h : (stripTrailingZeros ds).getLast? = some x) : x ≠ 0 := by
  unfold stripTrailingZeros at h
  rw [List.getLast?_reverse] at h
  have := head?_dropWhile_false _ _ _ h
  simpa using this

theorem stripTZ_sub_mem {ds : List ℕ} {x : ℕ}
    (h : x ∈ stripTrailingZeros ds) : x ∈ ds := by
  obtain ⟨z, hz⟩ := stripTZ_decomp ds
  rw [hz]
  exact List.mem_append_left _ h

theorem stripTZ_val (ds : List ℕ) :
    ∃ z, ds.length = (stripTrailingZeros ds).length + z ∧
      msbVal ds = msbVal (stripTrailingZeros ds) * 10 ^ z := by
  obtain ⟨z, hz⟩ := stripTZ_decomp ds
  refine ⟨z, ?_, ?_⟩
  · conv_lhs => rw [hz]
    simp
  · conv_lhs => rw [hz]
    exact msbVal_append_replicate _ z

theorem dropWhile_eq_self_of_head {α : Type} (p : α → Bool) (l : List α)
    (h : ∀ c ∈ l.head?, p c = false) : l.dropWhile p = l := by
  cases l with
  | nil => rfl
  | cons x xs =>
      rw [List.dropWhile_cons, if_neg]
      have := h x rfl
      simp [this]

theorem dropWhile_replicate_self {α : Type} (p : α → Bool) (a : α)
    (hp : p a = true) (z : ℕ) (L : List α) :
    (List.replicate z a ++ L).dropWhile p = L.dropWhile p := by
  induction z with
  | zero => simp
  | succ z ih =>
      rw [List.replicate_succ, List.cons_append, List.dropWhile_cons,
        if_pos hp, ih]

theorem getLast?_map (f : ℕ → Char) (l : List ℕ) :
    (l.map f).getLast? = l.getLast?.map f := by
  rw [← List.head?_reverse, ← List.map_reverse, List.head?_map,
    List.head?_reverse]

theorem strip_format_shape (pre : List Char) (ds : List ℕ)
    (hpre : ∃ d, pre.getLast? = some (digitChar d)) :
    rstripChar '.' (rstripChar '0' (pre ++ '.' :: ds.map digitChar)) =
      if stripTrailingZeros ds = [] then pre
      else pre ++ '.' :: (stripTrailingZeros ds).map digitChar := by
  obtain ⟨dlast, hdlast⟩ := hpre
  obtain ⟨z, hz⟩ := stripTZ_decomp ds
  have hpre_head : pre.reverse.head? = some (digitChar dlast) := by
    rw [List.head?_reverse]; exact hdlast
  have hdot_pre : List.dropWhile (fun a => a == '.') pre.reverse = pre.reverse := by
    apply dropWhile_eq_self_of_head
    intro c hc
    rw [hpre_head] at hc
    obtain rfl := Option.some.inj hc
    simpa using digitChar_ne_dot dlast
  have hx : rstripChar '0' (pre ++ '.' :: ds.map digitChar) =
      if stripTrailingZeros ds = [] then pre ++ ['.']
      else pre ++ '.' :: (stripTrailingZeros ds).map digitChar := by
    unfold rstripChar
    have hsrev : (pre ++ '.' :: ds.map digitChar).reverse =
        List.replicate z '0' ++
          (((stripTrailingZeros ds).map digitChar).reverse ++
            '.' :: pre.reverse) := by
      conv_lhs => rw [hz]
      simp [List.reverse_append, List.map_replicate, List.map_append, digitChar]
    rw [hsrev, dropWhile_replicate_self _ _ (by decide)]
    by_cases hnil : stripTrailingZeros ds = []
    · rw [if_pos hnil, hnil]
      simp only [List.map_nil, List.reverse_nil, List.nil_append]
      have hdd : List.dropWhile (fun a => a == '0') ('.' :: pre.reverse) =
          '.' :: pre.reverse := by
        apply dropWhile_eq_self_of_head
        intro c hc
        obtain rfl := Option.some.inj hc
        decide
      rw [hdd]
      simp
    · rw [if_neg hnil]
      have hlastC : (stripTrailingZeros ds).getLast? =
          some ((stripTrailingZeros ds).getLast hnil) :=
        List.getLast?_eq_getLast _ hnil
      have hne0 : (stripTrailingZeros ds).getLast hnil ≠ 0 :=
        stripTZ_getLast_ne hlastC
      have hdd : List.dropWhile (fun a => a == '0')
          ((((stripTrailingZeros ds).map digitChar).reverse) ++
            '.' :: pre.reverse) =
          (((stripTrailingZeros ds).map digitChar).reverse) ++
            '.' :: pre.reverse := by
        apply dropWhile_eq_self_of_head
        intro c hc
        rw [List.head?_append, List.head?_reverse, getLast?_map, hlastC] at hc
        have hc2 : some (digitChar ((stripTrailingZeros ds).getLast hnil)) =
            some c := hc
        obtain rfl := Option.some.inj hc2
        rw [digitChar_beq_zero]
        simpa using hne0
      rw [hdd]
      simp [List.reverse_append]
  rw [hx]
  by_cases hnil : stripTrailingZeros ds = []
  · rw [if_pos hnil, if_pos hnil]
    unfold rstripChar
    rw [List.reverse_append]
    simp only [List.reverse_cons, List.reverse_nil, List.nil_append]
    rw [List.singleton_append, List.dropWhile_cons, if_pos (by decide)]
    rw [hdot_pre]
    simp
  · rw [if_neg hnil, if_neg hnil]
    unfold rstripChar
    have hlastC : (stripTrailingZeros ds).getLast? =
        some ((stripTrailingZeros ds).getLast hnil) :=
      List.getLast?_eq_getLast _ hnil
    have hsrev2 : (pre ++ '.' :: (stripTrailingZeros ds).map digitChar).reverse =
        ((stripTrailingZeros ds).map digitChar).reverse ++ '.' :: pre.reverse := by
      simp [List.reverse_append]
    rw [hsrev2]
    have hdd : List.dropWhile (fun a => a == '.')
        (((stripTrailingZeros ds).map digitChar).reverse ++
          '.' :: pre.reverse) =
        ((stripTrailingZeros ds).map digitChar).reverse ++
          '.' :: pre.reverse := by
      apply dropWhile_eq_self_of_head
      intro c hc
      rw [List.head?_append, List.head?_reverse, getLast?_map, hlastC] at hc
      have hc2 : some (digitChar ((stripTrailingZeros ds).getLast hnil)) =
          some c := hc
      obtain rfl := Option.some.inj hc2
      simpa using digitChar_ne_dot _
    rw [hdd]
    rw [← hsrev2, List.reverse_reverse]

theorem takeDigits_spec :
    ∀ (ds : List ℕ) (acc cnt : ℕ) (rest : List Char),
      (∀ d ∈ ds, d < 10) →
      (∀ c ∈ rest.head?, isDigitChar c = false) →
      takeDigits (ds.map digitChar ++ rest) acc cnt =
        (ds.foldl (fun a d => a * 10 + d) acc, cnt + ds.length, rest) := by
  intro ds
  induction ds with
  | nil =>
      intro acc cnt rest _ hrest
      cases rest with
      | nil => simp [takeDigits]
      | cons c cs =>
          have hc := hrest c rfl
          simp [takeDigits, hc]
  | cons d ds ih =>
      intro acc cnt rest hlt hrest
      rw [List.map_cons, List.cons_append]
      rw [show takeDigits (digitChar d :: (ds.map digitChar ++ rest)) acc cnt =
          if isDigitChar (digitChar d) then
            takeDigits (ds.map digitChar ++ rest) (acc * 10 + digitVal (digitChar d)) (cnt + 1)
          else (acc, cnt, digitChar d :: (ds.map digitChar ++ rest)) from rfl]
      rw [if_pos (by rw [isDigitChar_digitChar])]
      rw [digitVal_digitChar (hlt d (List.mem_cons_self d ds))]
      rw [ih _ _ _ (fun x hx => hlt x (List.mem_cons_of_mem d hx)) hrest]
      simp only [List.foldl_cons, List.length_cons]
      have : cnt + 1 + ds.length = cnt + (ds.length + 1) := by omega
      rw [this]

theorem parseFloatChars_int (neg : Bool) (I : ℕ) :
    parseFloatChars ((if neg then ['-'] else []) ++ natChars I) =
      some ((if neg then (-1:ℚ) else 1) * (I : ℚ)) := by
  rcases he : natDigitsM I with _ | ⟨d0, ds0⟩
  · exact absurd he (natDigitsM_ne_nil I)
  have hnc : natChars I = digitChar d0 :: ds0.map digitChar := by
    unfold natChars
    rw [he, List.map_cons]
  have htd : takeDigits (digitChar d0 :: ds0.map digitChar) 0 0 =
      (I, 0 + (natDigitsM I).length, []) := by
    have h1 := takeDigits_spec (natDigitsM I) 0 0 [] (natDigitsM_lt I)
      (by intro c hc; simp at hc)
    rw [List.append_nil] at h1
    rw [he, List.map_cons] at h1
    rw [h1, ← he]
    have hm : (natDigitsM I).foldl (fun a d => a * 10 + d) 0 = I := by
      rw [show (natDigitsM I).foldl (fun a d => a * 10 + d) 0 =
          msbVal (natDigitsM I) from rfl, msbVal_natDigitsM]
    rw [hm]
  have hlen : (natDigitsM I).length ≠ 0 := by rw [he]; simp
  cases neg
  · show parseFloatChars ([] ++ natChars I) = some (1 * (I : ℚ))
    rw [List.nil_append, hnc]
    unfold parseFloatChars
    simp only [digitChar_ne_minus d0, digitChar_ne_plus d0, if_false, htd, Nat.zero_add,
      hlen, false_and, ite_false, Nat.cast_zero, pow_zero]
    norm_num
  · show parseFloatChars ('-' :: natChars I) = some (-1 * (I : ℚ))
    rw [hnc]
    unfold parseFloatChars
    simp only [if_pos rfl, ite_true]
    rw [htd]
    simp only [Nat.zero_add, hlen, false_and, ite_false, Nat.cast_zero, pow_zero]
    norm_num

theorem parseFloatChars_frac (neg : Bool) (I : ℕ) (core : List ℕ)
    (hcore : ∀ d ∈ core, d < 10) :
    parseFloatChars ((if neg then ['-'] else []) ++ natChars I ++ '.' :: core.map digitChar) =
      some ((if neg then (-1:ℚ) else 1) * ((I : ℚ) + (msbVal core : ℚ) / 10 ^ core.length)) := by
  rcases he : natDigitsM I with _ | ⟨d0, ds0⟩
  · exact absurd he (natDigitsM_ne_nil I)
  have hnc : natChars I ++ '.' :: core.map digitChar =
      digitChar d0 :: (ds0.map digitChar ++ '.' :: core.map digitChar) := by
    unfold natChars
    rw [he, List.map_cons, List.cons_append]
  have htd1 : takeDigits (digitChar d0 :: (ds0.map digitChar ++ '.' :: core.map digitChar)) 0 0 =
      (I, 0 + (natDigitsM I).length, '.' :: core.map digitChar) := by
    have h1 := takeDigits_spec (natDigitsM I) 0 0 ('.' :: core.map digitChar) (natDigitsM_lt I)
      (by intro c hc; simp at hc; rw [← hc]; decide)
    rw [he, List.map_cons, List.cons_append] at h1
    rw [h1, ← he]
    have hm : (natDigitsM I).foldl (fun a d => a * 10 + d) 0 = I := by
      rw [show (natDigitsM I).foldl (fun a d => a * 10 + d) 0 =
          msbVal (natDigitsM I) from rfl, msbVal_natDigitsM]
    rw [hm]
  have htd2 : takeDigits (core.map digitChar) 0 0 = (msbVal core, 0 + core.length, []) := by
    have h2 := takeDigits_spec core 0 0 [] hcore (by intro c hc; simp at hc)
    rw [List.append_nil] at h2
    rw [h2, show msbVal core = List.foldl (fun a d => a * 10 + d) 0 core from rfl]
  have hlen : (natDigitsM I).length ≠ 0 := by rw [he]; simp
  cases neg
  · show parseFloatChars ([] ++ (natChars I ++ '.' :: core.map digitChar)) =
        some (1 * ((I : ℚ) + (msbVal core : ℚ) / 10 ^ core.length))
    rw [List.nil_append, hnc]
    unfold parseFloatChars
    simp only [digitChar_ne_minus d0, digitChar_ne_plus d0, if_false, htd1, if_pos rfl,
      ite_true, htd2, Nat.zero_add, hlen, false_and, ite_false]
  · show parseFloatChars ('-' :: (natChars I ++ '.' :: core.map digitChar)) =
        some (-1 * ((I : ℚ) + (msbVal core : ℚ) / 10 ^ core.length))
    rw [hnc]
    unfold parseFloatChars
    simp only [if_pos rfl, ite_true]
    rw [htd1]
    simp only [if_pos rfl, ite_true, htd2, Nat.zero_add, hlen, false_and, ite_false]

theorem pyRound_eq (q : ℚ) : pyRound q =
    if q - ⌊q⌋ < 1 / 2 then ⌊q⌋
    else if 1 / 2 < q - ⌊q⌋ then ⌊q⌋ + 1
    else if ⌊q⌋ % 2 = 0 then ⌊q⌋ else ⌊q⌋ + 1 := rfl

theorem pyRound_abs_le (q : ℚ) : |(pyRound q : ℚ) - q| ≤ 1 / 2 := by
  have hf := Int.floor_le q
  have hf1 := Int.lt_floor_add_one q
  rw [pyRound_eq]
  split_ifs with h1 h2 h3
  · rw [abs_le]; constructor <;> linarith
  · push_cast
    rw [abs_le]; constructor <;> linarith
  · rw [abs_le]; constructor <;> linarith
  · push_cast
    rw [abs_le]; constructor <;> linarith

theorem pyRound_nonneg {q : ℚ} (hq : 0 ≤ q) : 0 ≤ pyRound q := by
  have hf : 0 ≤ ⌊q⌋ := Int.floor_nonneg.mpr hq
  rw [pyRound_eq]
  split_ifs <;> omega

theorem pyRound_nonpos {q : ℚ} (hq : q < 0) : pyRound q ≤ 0 := by
  have hf : (⌊q⌋ : ℚ) ≤ q := Int.floor_le q
  have hf0 : (⌊q⌋ : ℚ) < 0 := lt_of_le_of_lt hf hq
  have hfz : ⌊q⌋ < 0 := by exact_mod_cast hf0
  rw [pyRound_eq]
  split_ifs <;> omega

theorem parse_pre_strip (neg : Bool) (I : ℕ) (ds : List ℕ) (hlt : ∀ d ∈ ds, d < 10) :
    parseFloatChars (rstripChar '.' (rstripChar '0'
      ((if neg then ['-'] else []) ++ natChars I ++ '.' :: ds.map digitChar))) =
      some ((if neg then (-1:ℚ) else 1) * ((I : ℚ) + (msbVal ds : ℚ) / 10 ^ ds.length)) := by
  have hnc_ne : natChars I ≠ [] := by
    unfold natChars
    simp [natDigitsM_ne_nil I]
  have hpre_last : ∃ d,
      ((if neg then ['-'] else []) ++ natChars I).getLast? = some (digitChar d) := by
    have hsome : (natDigitsM I).getLast?.isSome := by
      rw [List.getLast?_isSome]
      exact natDigitsM_ne_nil I
    obtain ⟨dl, hdl⟩ := Option.isSome_iff_exists.mp hsome
    refine ⟨dl, ?_⟩
    rw [List.getLast?_append_of_ne_nil _ hnc_ne]
    unfold natChars
    rw [getLast?_map, hdl]
    rfl
  rw [strip_format_shape _ _ hpre_last]
  by_cases hempty : stripTrailingZeros ds = []
  · rw [if_pos hempty]
    obtain ⟨z, hzl, hzv⟩ := stripTZ_val ds
    rw [hempty] at hzv
    rw [show msbVal [] = 0 from rfl, Nat.zero_mul] at hzv
    rw [parseFloatChars_int neg I, hzv]
    norm_num
  · rw [if_neg hempty]
    rw [parseFloatChars_frac neg I (stripTrailingZeros ds)
      (fun d hd => hlt d (stripTZ_sub_mem hd))]
    obtain ⟨z, hzl, hzv⟩ := stripTZ_val ds
    congr 1
    have h10 : (10:ℚ) ^ ds.length = 10 ^ (stripTrailingZeros ds).length * 10 ^ z := by
      rw [← pow_add, hzl]
    rw [hzv]
    push_cast
    rw [h10]
    have hp1 : (10:ℚ) ^ (stripTrailingZeros ds).length ≠ 0 := by positivity
    have hp2 : (10:ℚ) ^ z ≠ 0 := by positivity
    field_simp
    split_ifs <;> ring

theorem cast_div_add_mod (a : ℕ) :
    (a : ℚ) = 10 ^ 6 * (a / 10 ^ 6 : ℕ) + (a % 10 ^ 6 : ℕ) := by
  exact_mod_cast (Nat.div_add_mod a (10 ^ 6)).symm

theorem parse_format_fixed (x : ℚ) :
    parseFloatChars (rstripChar '.' (rstripChar '0' (formatF6 x))) =
      some ((pyRound (x * 10 ^ 6) : ℚ) / 10 ^ 6) := by
  have hmod : (pyRound (x * 10 ^ 6)).natAbs % 10 ^ 6 < 10 ^ 6 :=
    Nat.mod_lt _ (by norm_num)
  have hlt : ∀ d ∈ padDigits 6 (natDigitsM ((pyRound (x * 10 ^ 6)).natAbs % 10 ^ 6)),
      d < 10 := padDigits_lt _ _ (natDigitsM_lt _)
  have hlen6 : (padDigits 6 (natDigitsM ((pyRound (x * 10 ^ 6)).natAbs % 10 ^ 6))).length = 6 := by
    unfold padDigits
    rw [List.length_append, List.length_replicate]
    have := natDigitsM_length_le hmod (by norm_num)
    omega
  have hmsb : msbVal (padDigits 6 (natDigitsM ((pyRound (x * 10 ^ 6)).natAbs % 10 ^ 6))) =
      (pyRound (x * 10 ^ 6)).natAbs % 10 ^ 6 := by
    rw [msbVal_padDigits, msbVal_natDigitsM]
  have hdm := cast_div_add_mod (pyRound (x * 10 ^ 6)).natAbs
  by_cases hx : x < 0
  · have hform : formatF6 x = ['-'] ++ natChars ((pyRound (x * 10 ^ 6)).natAbs / 10 ^ 6) ++
        '.' :: (padDigits 6 (natDigitsM ((pyRound (x * 10 ^ 6)).natAbs % 10 ^ 6))).map
          digitChar := by
      unfold formatF6
      rw [if_pos hx]
    have hp := parse_pre_strip true ((pyRound (x * 10 ^ 6)).natAbs / 10 ^ 6)
      (padDigits 6 (natDigitsM ((pyRound (x * 10 ^ 6)).natAbs % 10 ^ 6))) hlt
    rw [if_pos rfl] at hp
    rw [if_pos rfl] at hp
    rw [hform, hp, hlen6, hmsb]
    have hnle : pyRound (x * 10 ^ 6) ≤ 0 :=
      pyRound_nonpos (mul_neg_of_neg_of_pos hx (by norm_num))
    have hna : ((pyRound (x * 10 ^ 6) : ℤ) : ℚ) = -((pyRound (x * 10 ^ 6)).natAbs : ℚ) := by
      rw [Int.cast_natAbs, abs_of_nonpos (by exact_mod_cast hnle)]
      push_cast
      ring
    rw [hna, hdm]
    norm_num
    ring
  · have hform : formatF6 x = [] ++ natChars ((pyRound (x * 10 ^ 6)).natAbs / 10 ^ 6) ++
        '.' :: (padDigits 6 (natDigitsM ((pyRound (x * 10 ^ 6)).natAbs % 10 ^ 6))).map
          digitChar := by
      unfold formatF6
      rw [if_neg hx]
    have hp := parse_pre_strip false ((pyRound (x * 10 ^ 6)).natAbs / 10 ^ 6)
      (padDigits 6 (natDigitsM ((pyRound (x * 10 ^ 6)).natAbs % 10 ^ 6))) hlt
    simp only [Bool.false_eq_true, if_false] at hp
    rw [hform, hp, hlen6, hmsb]
    have hnge : 0 ≤ pyRound (x * 10 ^ 6) :=
      pyRound_nonneg (mul_nonneg (le_of_not_lt hx) (by norm_num))
    have hna : ((pyRound (x * 10 ^ 6) : ℤ) : ℚ) = ((pyRound (x * 10 ^ 6)).natAbs : ℚ) := by
      rw [Int.cast_natAbs, abs_of_nonneg (by exact_mod_cast hnge)]
    rw [hna, hdm]
    norm_num
    ring

theorem int_log_eq {r : ℚ} {z : ℤ} (hr : 0 < r) (h1 : ((10:ℕ):ℚ) ^ z ≤ r)
    (h2 : r < ((10:ℕ):ℚ) ^ (z + 1)) : Int.log 10 r = z := by
  have ha := (Int.zpow_le_iff_le_log (by norm_num) hr).mp h1
  have hb := (Int.lt_zpow_iff_log_lt (by norm_num) hr).mp h2
  omega

theorem formatF6_decomp (x : ℚ) : formatF6 x =
    (if x < 0 then ['-'] else []) ++
      natChars ((pyRound (x * 10 ^ 6)).natAbs / 10 ^ 6) ++
      '.' :: (padDigits 6 (natDigitsM ((pyRound (x * 10 ^ 6)).natAbs % 10 ^ 6))).map
        digitChar := rfl

theorem natChars_ne_nil (I : ℕ) : natChars I ≠ [] := by
  unfold natChars
  simp [natDigitsM_ne_nil I]

theorem getLast_sign_natChars (sgn : List Char) (I : ℕ) :
    ∃ d, (sgn ++ natChars I).getLast? = some (digitChar d) := by
  have hsome : (natDigitsM I).getLast?.isSome := by
    rw [List.getLast?_isSome]
    exact natDigitsM_ne_nil I
  obtain ⟨dl, hdl⟩ := Option.isSome_iff_exists.mp hsome
  refine ⟨dl, ?_⟩
  rw [List.getLast?_append_of_ne_nil _ (natChars_ne_nil I)]
  unfold natChars
  rw [getLast?_map, hdl]
  rfl

theorem stripChars_eq_self (s : List Char)
    (h1 : ∀ c ∈ s.head?, c.isWhitespace = false)
    (h2 : ∀ c ∈ s.getLast?, c.isWhitespace = false) : stripChars s = s := by
  unfold stripChars
  rw [dropWhile_eq_self_of_head (fun a => a.isWhitespace) s
    (by intro c hc; simpa using h1 c hc)]
  rw [dropWhile_eq_self_of_head (fun a => a.isWhitespace) s.reverse (by
    intro c hc
    rw [List.head?_reverse] at hc
    simpa using h2 c hc)]
  exact List.reverse_reverse s

theorem head_pre_not_ws (x : ℚ) (I : ℕ) :
    ∀ c ∈ ((if x < 0 then ['-'] else []) ++ natChars I).head?, c.isWhitespace = false := by
  intro c hc
  by_cases hx : x < 0
  · rw [if_pos hx] at hc
    simp only [List.cons_append, List.head?_cons, Option.mem_def,
      Option.some.injEq] at hc
    rw [← hc]
    decide
  · rw [if_neg hx, List.nil_append] at hc
    unfold natChars at hc
    rw [List.head?_map] at hc
    cases hh : (natDigitsM I).head? with
    | none => rw [hh] at hc; simp at hc
    | some d =>
        rw [hh] at hc
        have hcd : digitChar d = c := by simpa using hc
        rw [← hcd]
        exact digitChar_not_ws d

theorem pre_ne_nil (x : ℚ) (I : ℕ) :
    (if x < 0 then ['-'] else []) ++ natChars I ≠ [] := by
  intro h
  exact natChars_ne_nil I (List.append_eq_nil.mp h).2

theorem stripped_props (x : ℚ) :
    (∀ c ∈ (rstripChar '.' (rstripChar '0' (formatF6 x))).head?, c.isWhitespace = false) ∧
    ∃ d, (rstripChar '.' (rstripChar '0' (formatF6 x))).getLast? = some (digitChar d) := by
  obtain ⟨dl, hdl⟩ := getLast_sign_natChars (if x < 0 then ['-'] else [])
    ((pyRound (x * 10 ^ 6)).natAbs / 10 ^ 6)
  rw [formatF6_decomp x, strip_format_shape _ _ ⟨dl, hdl⟩]
  by_cases hemp : stripTrailingZeros (padDigits 6
      (natDigitsM ((pyRound (x * 10 ^ 6)).natAbs % 10 ^ 6))) = []
  · rw [if_pos hemp]
    exact ⟨head_pre_not_ws x _, dl, hdl⟩
  · rw [if_neg hemp]
    constructor
    · intro c hc
      rw [List.head?_append_of_ne_nil _ (pre_ne_nil x _)] at hc
      exact head_pre_not_ws x _ c hc
    · have hcore : (stripTrailingZeros (padDigits 6
          (natDigitsM ((pyRound (x * 10 ^ 6)).natAbs % 10 ^ 6)))).getLast?.isSome := by
        rw [List.getLast?_isSome]
        exact hemp
      obtain ⟨dc, hdc⟩ := Option.isSome_iff_exists.mp hcore
      refine ⟨dc, ?_⟩
      rw [List.getLast?_append_of_ne_nil _ (by simp : ('.' :: (stripTrailingZeros
        (padDigits 6 (natDigitsM ((pyRound (x * 10 ^ 6)).natAbs % 10 ^ 6)))).map digitChar) ≠ [])]
      rw [show ('.' :: (stripTrailingZeros (padDigits 6
          (natDigitsM ((pyRound (x * 10 ^ 6)).natAbs % 10 ^ 6)))).map digitChar) =
        ['.'] ++ (stripTrailingZeros (padDigits 6
          (natDigitsM ((pyRound (x * 10 ^ 6)).natAbs % 10 ^ 6)))).map digitChar from rfl]
      rw [List.getLast?_append_of_ne_nil _ (by
        intro h
        exact hemp (List.map_eq_nil_iff.mp h))]
      rw [getLast?_map, hdc]
      rfl

theorem find_prefix_digit_none (d : ℕ) :
    PREFIX_TO_VALUE.find? (fun cf => ((some (digitChar d) : Option Char) == some cf.1)) =
      none := by
  rcases d with _|_|_|_|_|_|_|_|_|_|d
  all_goals first
    | decide
    | exact (by decide : PREFIX_TO_VALUE.find?
        (fun cf => ((some '9' : Option Char) == some cf.1)) = none)

theorem parse_strip_plain (x : ℚ) :
    parse_engineering_format ⟨rstripChar '.' (rstripChar '0' (formatF6 x))⟩ =
      some ((pyRound (x * 10 ^ 6) : ℚ) / 10 ^ 6) := by
  obtain ⟨hhead, dlast, hlast⟩ := stripped_props x
  have hne : rstripChar '.' (rstripChar '0' (formatF6 x)) ≠ [] := by
    intro h
    rw [h] at hlast
    simp at hlast
  simp only [parse_engineering_format]
  rw [stripChars_eq_self _ hhead (by
    intro c hc
    rw [hlast] at hc
    have hcd : digitChar dlast = c := by simpa using hc
    rw [← hcd]
    exact digitChar_not_ws dlast)]
  rw [if_neg (by simpa using hne)]
  simp only [hlast]
  rw [find_prefix_digit_none dlast]
  exact parse_format_fixed x

set_option maxHeartbeats 1000000 in
theorem parse_strip_concat (x : ℚ) (lc : Char) (P : ℚ)
    (hws : lc.isWhitespace = false)
    (hfind : PREFIX_TO_VALUE.find? (fun cf => ((some lc : Option Char) == some cf.1)) =
      some (lc, P)) :
    parse_engineering_format ⟨rstripChar '.' (rstripChar '0' (formatF6 x)) ++ [lc]⟩ =
      some ((pyRound (x * 10 ^ 6) : ℚ) / 10 ^ 6 * P) := by
  obtain ⟨hhead, dlast, hlast⟩ := stripped_props x
  have hne : rstripChar '.' (rstripChar '0' (formatF6 x)) ≠ [] := by
    intro h
    rw [h] at hlast
    simp at hlast
  have hlastL : (rstripChar '.' (rstripChar '0' (formatF6 x)) ++ [lc]).getLast? = some lc :=
    List.getLast?_concat _
  simp only [parse_engineering_format]
  rw [stripChars_eq_self _ (by
      intro c hc
      rw [List.head?_append_of_ne_nil _ hne] at hc
      exact hhead c hc)
    (by
      intro c hc
      rw [hlastL] at hc
      have hcd : lc = c := by simpa using hc
      rw [← hcd]
      exact hws)]
  rw [if_neg (by simp)]
  simp only [hlastL]
  rw [hfind]
  simp only []
  rw [List.dropLast_concat, parse_format_fixed x]
  simp [Option.map_some]

theorem round_scale_bound (v T : ℚ) (hT : 0 < T) (hTv : T ≤ |v|) :
    |(pyRound (v / T * 10 ^ 6) : ℚ) / 10 ^ 6 * T - v| ≤ |v| / 2000000 := by
  have h1 := pyRound_abs_le (v / T * 10 ^ 6)
  have key : |(pyRound (v / T * 10 ^ 6) : ℚ) / 10 ^ 6 * T - v| =
      T / 10 ^ 6 * |(pyRound (v / T * 10 ^ 6) : ℚ) - v / T * 10 ^ 6| := by
    rw [← abs_of_pos (show (0:ℚ) < T / 10 ^ 6 by positivity), ← abs_mul]
    congr 1
    field_simp
    ring
  rw [key]
  have h2 : T / 10 ^ 6 * |(pyRound (v / T * 10 ^ 6) : ℚ) - v / T * 10 ^ 6| ≤
      T / 10 ^ 6 * (1 / 2) := by
    apply mul_le_mul_of_nonneg_left h1 (by positivity)
  apply le_trans h2
  linarith [hTv]


theorem eng_roundtrip (v : ℚ) (hv : 1 / 10 ^ 12 ≤ |v|) :
    ∃ w, parse_engineering_format (engineering_format v) = some w ∧
      |w - v| ≤ |v| / 2000000 := by
  have hv0 : v ≠ 0 := by
    intro h
    rw [h] at hv
    norm_num at hv
  by_cases h9 : 10 ^ 9 ≤ |v|
  · have hfind : ENG_THRESHOLDS.find? (fun ep => decide (|v| ≥ ep.1)) =
        some (10 ^ 9, ['G']) := by
      unfold ENG_THRESHOLDS
      have s0 : List.find? (fun ep : ℚ × List Char => decide (|v| ≥ ep.1))
          [(10 ^ 9, ['G']), (10 ^ 6, ['M']), (10 ^ 3, ['k']), (1, []), (1 / 10 ^ 3, ['m']), (1 / 10 ^ 6, ['u']), (1 / 10 ^ 9, ['n']), (1 / 10 ^ 12, ['p'])] = some (10 ^ 9, ['G']) :=
        List.find?_cons_of_pos _ (by simp only [decide_eq_true_eq]; exact h9)
      rw [s0]
    have hfmt : engFormatChars v =
        rstripChar '.' (rstripChar '0' (formatF6 (v / (10 ^ 9)))) ++ ['G'] := by
      unfold engFormatChars
      rw [if_neg hv0, hfind]
    have hstr : engineering_format v =
        (⟨rstripChar '.' (rstripChar '0' (formatF6 (v / (10 ^ 9)))) ++ ['G']⟩ : String) :=
      congrArg String.mk hfmt
    have hpf : PREFIX_TO_VALUE.find? (fun cf => ((some 'G' : Option Char) == some cf.1)) =
        some ('G', 10 ^ 9) := by rfl
    refine ⟨(pyRound (v / (10 ^ 9) * 10 ^ 6) : ℚ) / 10 ^ 6 * (10 ^ 9), ?_, ?_⟩
    · rw [hstr]
      exact parse_strip_concat (v / (10 ^ 9)) 'G' (10 ^ 9) (by decide) hpf
    · exact round_scale_bound v (10 ^ 9) (by norm_num) h9
  by_cases h6 : 10 ^ 6 ≤ |v|
  · have hfind : ENG_THRESHOLDS.find? (fun ep => decide (|v| ≥ ep.1)) =
        some (10 ^ 6, ['M']) := by
      unfold ENG_THRESHOLDS
      have s0 : List.find? (fun ep : ℚ × List Char => decide (|v| ≥ ep.1))
          [(10 ^ 9, ['G']), (10 ^ 6, ['M']), (10 ^ 3, ['k']), (1, []), (1 / 10 ^ 3, ['m']), (1 / 10 ^ 6, ['u']), (1 / 10 ^ 9, ['n']), (1 / 10 ^ 12, ['p'])] =
          List.find? (fun ep : ℚ × List Char => decide (|v| ≥ ep.1))
          [(10 ^ 6, ['M']), (10 ^ 3, ['k']), (1, []), (1 / 10 ^ 3, ['m']), (1 / 10 ^ 6, ['u']), (1 / 10 ^ 9, ['n']), (1 / 10 ^ 12, ['p'])] :=
        List.find?_cons_of_neg _ (by simp only [decide_eq_true_eq]; exact h9)
      have s1 : List.find? (fun ep : ℚ × List Char => decide (|v| ≥ ep.1))
          [(10 ^ 6, ['M']), (10 ^ 3, ['k']), (1, []), (1 / 10 ^ 3, ['m']), (1 / 10 ^ 6, ['u']), (1 / 10 ^ 9, ['n']), (1 / 10 ^ 12, ['p'])] = some (10 ^ 6, ['M']) :=
        List.find?_cons_of_pos _ (by simp only [decide_eq_true_eq]; exact h6)
      rw [s0, s1]
    have hfmt : engFormatChars v =
        rstripChar '.' (rstripChar '0' (formatF6 (v / (10 ^ 6)))) ++ ['M'] := by
      unfold engFormatChars
      rw [if_neg hv0, hfind]
    have hstr : engineering_format v =
        (⟨rstripChar '.' (rstripChar '0' (formatF6 (v / (10 ^ 6)))) ++ ['M']⟩ : String) :=
      congrArg String.mk hfmt
    have hpf : PREFIX_TO_VALUE.find? (fun cf => ((some 'M' : Option Char) == some cf.1)) =
        some ('M', 10 ^ 6) := by rfl
    refine ⟨(pyRound (v / (10 ^ 6) * 10 ^ 6) : ℚ) / 10 ^ 6 * (10 ^ 6), ?_, ?_⟩
    · rw [hstr]
      exact parse_strip_concat (v / (10 ^ 6)) 'M' (10 ^ 6) (by decide) hpf
    · exact round_scale_bound v (10 ^ 6) (by norm_num) h6
  by_cases h3 : 10 ^ 3 ≤ |v|
  · have hfind : ENG_THRESHOLDS.find? (fun ep => decide (|v| ≥ ep.1)) =
        some (10 ^ 3, ['k']) := by
      unfold ENG_THRESHOLDS
      have s0 : List.find? (fun ep : ℚ × List Char => decide (|v| ≥ ep.1))
          [(10 ^ 9, ['G']), (10 ^ 6, ['M']), (10 ^ 3, ['k']), (1, []), (1 / 10 ^ 3, ['m']), (1 / 10 ^ 6, ['u']), (1 / 10 ^ 9, ['n']), (1 / 10 ^ 12, ['p'])] =
          List.find? (fun ep : ℚ × List Char => decide (|v| ≥ ep.1))
          [(10 ^ 6, ['M']), (10 ^ 3, ['k']), (1, []), (1 / 10 ^ 3, ['m']), (1 / 10 ^ 6, ['u']), (1 / 10 ^ 9, ['n']), (1 / 10 ^ 12, ['p'])] :=
        List.find?_cons_of_neg _ (by simp only [decide_eq_true_eq]; exact h9)
      have s1 : List.find? (fun ep : ℚ × List Char => decide (|v| ≥ ep.1))
          [(10 ^ 6, ['M']), (10 ^ 3, ['k']), (1, []), (1 / 10 ^ 3, ['m']), (1 / 10 ^ 6, ['u']), (1 / 10 ^ 9, ['n']), (1 / 10 ^ 12, ['p'])] =
          List.find? (fun ep : ℚ × List Char => decide (|v| ≥ ep.1))
          [(10 ^ 3, ['k']), (1, []), (1 / 10 ^ 3, ['m']), (1 / 10 ^ 6, ['u']), (1 / 10 ^ 9, ['n']), (1 / 10 ^ 12, ['p'])] :=
        List.find?_cons_of_neg _ (by simp only [decide_eq_true_eq]; exact h6)
      have s2 : List.find? (fun ep : ℚ × List Char => decide (|v| ≥ ep.1))
          [(10 ^ 3, ['k']), (1, []), (1 / 10 ^ 3, ['m']), (1 / 10 ^ 6, ['u']), (1 / 10 ^ 9, ['n']), (1 / 10 ^ 12, ['p'])] = some (10 ^ 3, ['k']) :=
        List.find?_cons_of_pos _ (by simp only [decide_eq_true_eq]; exact h3)
      rw [s0, s1, s2]
    have hfmt : engFormatChars v =
        rstripChar '.' (rstripChar '0' (formatF6 (v / (10 ^ 3)))) ++ ['k'] := by
      unfold engFormatChars
      rw [if_neg hv0, hfind]
    have hstr : engineering_format v =
        (⟨rstripChar '.' (rstripChar '0' (formatF6 (v / (10 ^ 3)))) ++ ['k']⟩ : String) :=
      congrArg String.mk hfmt
    have hpf : PREFIX_TO_VALUE.find? (fun cf => ((some 'k' : Option Char) == some cf.1)) =
        some ('k', 10 ^ 3) := by rfl
    refine ⟨(pyRound (v / (10 ^ 3) * 10 ^ 6) : ℚ) / 10 ^ 6 * (10 ^ 3), ?_, ?_⟩
    · rw [hstr]
      exact parse_strip_concat (v / (10 ^ 3)) 'k' (10 ^ 3) (by decide) hpf
    · exact round_scale_bound v (10 ^ 3) (by norm_num) h3
  by_cases h0 : 1 ≤ |v|
  · have hfind : ENG_THRESHOLDS.find? (fun ep => decide (|v| ≥ ep.1)) =
        some (1, []) := by
      unfold ENG_THRESHOLDS
      have s0 : List.find? (fun ep : ℚ × List Char => decide (|v| ≥ ep.1))
          [(10 ^ 9, ['G']), (10 ^ 6, ['M']), (10 ^ 3, ['k']), (1, []), (1 / 10 ^ 3, ['m']), (1 / 10 ^ 6, ['u']), (1 / 10 ^ 9, ['n']), (1 / 10 ^ 12, ['p'])] =
          List.find? (fun ep : ℚ × List Char => decide (|v| ≥ ep.1))
          [(10 ^ 6, ['M']), (10 ^ 3, ['k']), (1, []), (1 / 10 ^ 3, ['m']), (1 / 10 ^ 6, ['u']), (1 / 10 ^ 9, ['n']), (1 / 10 ^ 12, ['p'])] :=
        List.find?_cons_of_neg _ (by simp only [decide_eq_true_eq]; exact h9)
      have s1 : List.find? (fun ep : ℚ × List Char => decide (|v| ≥ ep.1))
          [(10 ^ 6, ['M']), (10 ^ 3, ['k']), (1, []), (1 / 10 ^ 3, ['m']), (1 / 10 ^ 6, ['u']), (1 / 10 ^ 9, ['n']), (1 / 10 ^ 12, ['p'])] =
          List.find? (fun ep : ℚ × List Char => decide (|v| ≥ ep.1))
          [(10 ^ 3, ['k']), (1, []), (1 / 10 ^ 3, ['m']), (1 / 10 ^ 6, ['u']), (1 / 10 ^ 9, ['n']), (1 / 10 ^ 12, ['p'])] :=
        List.find?_cons_of_neg _ (by simp only [decide_eq_true_eq]; exact h6)
      have s2 : List.find? (fun ep : ℚ × List Char => decide (|v| ≥ ep.1))
          [(10 ^ 3, ['k']), (1, []), (1 / 10 ^ 3, ['m']), (1 / 10 ^ 6, ['u']), (1 / 10 ^ 9, ['n']), (1 / 10 ^ 12, ['p'])] =
          List.find? (fun ep : ℚ × List Char => decide (|v| ≥ ep.1))
          [(1, []), (1 / 10 ^ 3, ['m']), (1 / 10 ^ 6, ['u']), (1 / 10 ^ 9, ['n']), (1 / 10 ^ 12, ['p'])] :=
        List.find?_cons_of_neg _ (by simp only [decide_eq_true_eq]; exact h3)
      have s3 : List.find? (fun ep : ℚ × List Char => decide (|v| ≥ ep.1))
          [(1, []), (1 / 10 ^ 3, ['m']), (1 / 10 ^ 6, ['u']), (1 / 10 ^ 9, ['n']), (1 / 10 ^ 12, ['p'])] = some (1, []) :=
        List.find?_cons_of_pos _ (by simp only [decide_eq_true_eq]; exact h0)
      rw [s0, s1, s2, s3]
    have hfmt : engFormatChars v =
        rstripChar '.' (rstripChar '0' (formatF6 (v / 1))) ++ [] := by
      unfold engFormatChars
      rw [if_neg hv0, hfind]
    have hfmt2 : engFormatChars v =
        rstripChar '.' (rstripChar '0' (formatF6 (v / 1))) := by
      rw [hfmt, List.append_nil]
    have hstr : engineering_format v =
        (⟨rstripChar '.' (rstripChar '0' (formatF6 (v / 1)))⟩ : String) :=
      congrArg String.mk hfmt2
    refine ⟨(pyRound (v / 1 * 10 ^ 6) : ℚ) / 10 ^ 6, ?_, ?_⟩
    · rw [hstr]
      exact parse_strip_plain (v / 1)
    · have hb := round_scale_bound v 1 (by norm_num) h0
      rw [mul_one] at hb
      exact hb
  by_cases hm3 : 1 / 10 ^ 3 ≤ |v|
  · have hfind : ENG_THRESHOLDS.find? (fun ep => decide (|v| ≥ ep.1)) =
        some (1 / 10 ^ 3, ['m']) := by
      unfold ENG_THRESHOLDS
      have s0 : List.find? (fun ep : ℚ × List Char => decide (|v| ≥ ep.1))
          [(10 ^ 9, ['G']), (10 ^ 6, ['M']), (10 ^ 3, ['k']), (1, []), (1 / 10 ^ 3, ['m']), (1 / 10 ^ 6, ['u']), (1 / 10 ^ 9, ['n']), (1 / 10 ^ 12, ['p'])] =
          List.find? (fun ep : ℚ × List Char => decide (|v| ≥ ep.1))
          [(10 ^ 6, ['M']), (10 ^ 3, ['k']), (1, []), (1 / 10 ^ 3, ['m']), (1 / 10 ^ 6, ['u']), (1 / 10 ^ 9, ['n']), (1 / 10 ^ 12, ['p'])] :=
        List.find?_cons_of_neg _ (by simp only [decide_eq_true_eq]; exact h9)
      have s1 : List.find? (fun ep : ℚ × List Char => decide (|v| ≥ ep.1))
          [(10 ^ 6, ['M']), (10 ^ 3, ['k']), (1, []), (1 / 10 ^ 3, ['m']), (1 / 10 ^ 6, ['u']), (1 / 10 ^ 9, ['n']), (1 / 10 ^ 12, ['p'])] =
          List.find? (fun ep : ℚ × List Char => decide (|v| ≥ ep.1))
          [(10 ^ 3, ['k']), (1, []), (1 / 10 ^ 3, ['m']), (1 / 10 ^ 6, ['u']), (1 / 10 ^ 9, ['n']), (1 / 10 ^ 12, ['p'])] :=
        List.find?_cons_of_neg _ (by simp only [decide_eq_true_eq]; exact h6)
      have s2 : List.find? (fun ep : ℚ × List Char => decide (|v| ≥ ep.1))
          [(10 ^ 3, ['k']), (1, []), (1 / 10 ^ 3, ['m']), (1 / 10 ^ 6, ['u']), (1 / 10 ^ 9, ['n']), (1 / 10 ^ 12, ['p'])] =
          List.find? (fun ep : ℚ × List Char => decide (|v| ≥ ep.1))
          [(1, []), (1 / 10 ^ 3, ['m']), (1 / 10 ^ 6, ['u']), (1 / 10 ^ 9, ['n']), (1 / 10 ^ 12, ['p'])] :=
        List.find?_cons_of_neg _ (by simp only [decide_eq_true_eq]; exact h3)
      have s3 : List.find? (fun ep : ℚ × List Char => decide (|v| ≥ ep.1))
          [(1, []), (1 / 10 ^ 3, ['m']), (1 / 10 ^ 6, ['u']), (1 / 10 ^ 9, ['n']), (1 / 10 ^ 12, ['p'])] =
          List.find? (fun ep : ℚ × List Char => decide (|v| ≥ ep.1))
          [(1 / 10 ^ 3, ['m']), (1 / 10 ^ 6, ['u']), (1 / 10 ^ 9, ['n']), (1 / 10 ^ 12, ['p'])] :=
        List.find?_cons_of_neg _ (by simp only [decide_eq_true_eq]; exact h0)
      have s4 : List.find? (fun ep : ℚ × List Char => decide (|v| ≥ ep.1))
          [(1 / 10 ^ 3, ['m']), (1 / 10 ^ 6, ['u']), (1 / 10 ^ 9, ['n']), (1 / 10 ^ 12, ['p'])] = some (1 / 10 ^ 3, ['m']) :=
        List.find?_cons_of_pos _ (by simp only [decide_eq_true_eq]; exact hm3)
      rw [s0, s1, s2, s3, s4]
    have hfmt : engFormatChars v =
        rstripChar '.' (rstripChar '0' (formatF6 (v / (1 / 10 ^ 3)))) ++ ['m'] := by
      unfold engFormatChars
      rw [if_neg hv0, hfind]
    have hstr : engineering_format v =
        (⟨rstripChar '.' (rstripChar '0' (formatF6 (v / (1 / 10 ^ 3)))) ++ ['m']⟩ : String) :=
      congrArg String.mk hfmt
    have hpf : PREFIX_TO_VALUE.find? (fun cf => ((some 'm' : Option Char) == some cf.1)) =
        some ('m', 1 / 10 ^ 3) := by rfl
    refine ⟨(pyRound (v / (1 / 10 ^ 3) * 10 ^ 6) : ℚ) / 10 ^ 6 * (1 / 10 ^ 3), ?_, ?_⟩
    · rw [hstr]
      exact parse_strip_concat (v / (1 / 10 ^ 3)) 'm' (1 / 10 ^ 3) (by decide) hpf
    · exact round_scale_bound v (1 / 10 ^ 3) (by norm_num) hm3
  by_cases hm6 : 1 / 10 ^ 6 ≤ |v|
  · have hfind : ENG_THRESHOLDS.find? (fun ep => decide (|v| ≥ ep.1)) =
        some (1 / 10 ^ 6, ['u']) := by
      unfold ENG_THRESHOLDS
      have s0 : List.find? (fun ep : ℚ × List Char => decide (|v| ≥ ep.1))
          [(10 ^ 9, ['G']), (10 ^ 6, ['M']), (10 ^ 3, ['k']), (1, []), (1 / 10 ^ 3, ['m']), (1 / 10 ^ 6, ['u']), (1 / 10 ^ 9, ['n']), (1 / 10 ^ 12, ['p'])] =
          List.find? (fun ep : ℚ × List Char => decide (|v| ≥ ep.1))
          [(10 ^ 6, ['M']), (10 ^ 3, ['k']), (1, []), (1 / 10 ^ 3, ['m']), (1 / 10 ^ 6, ['u']), (1 / 10 ^ 9, ['n']), (1 / 10 ^ 12, ['p'])] :=
        List.find?_cons_of_neg _ (by simp only [decide_eq_true_eq]; exact h9)
      have s1 : List.find? (fun ep : ℚ × List Char => decide (|v| ≥ ep.1))
          [(10 ^ 6, ['M']), (10 ^ 3, ['k']), (1, []), (1 / 10 ^ 3, ['m']), (1 / 10 ^ 6, ['u']), (1 / 10 ^ 9, ['n']), (1 / 10 ^ 12, ['p'])] =
          List.find? (fun ep : ℚ × List Char => decide (|v| ≥ ep.1))
          [(10 ^ 3, ['k']), (1, []), (1 / 10 ^ 3, ['m']), (1 / 10 ^ 6, ['u']), (1 / 10 ^ 9, ['n']), (1 / 10 ^ 12, ['p'])] :=
        List.find?_cons_of_neg _ (by simp only [decide_eq_true_eq]; exact h6)
      have s2 : List.find? (fun ep : ℚ × List Char => decide (|v| ≥ ep.1))
          [(10 ^ 3, ['k']), (1, []), (1 / 10 ^ 3, ['m']), (1 / 10 ^ 6, ['u']), (1 / 10 ^ 9, ['n']), (1 / 10 ^ 12, ['p'])] =
          List.find? (fun ep : ℚ × List Char => decide (|v| ≥ ep.1))
          [(1, []), (1 / 10 ^ 3, ['m']), (1 / 10 ^ 6, ['u']), (1 / 10 ^ 9, ['n']), (1 / 10 ^ 12, ['p'])] :=
        List.find?_cons_of_neg _ (by simp only [decide_eq_true_eq]; exact h3)
      have s3 : List.find? (fun ep : ℚ × List Char => decide (|v| ≥ ep.1))
          [(1, []), (1 / 10 ^ 3, ['m']), (1 / 10 ^ 6, ['u']), (1 / 10 ^ 9, ['n']), (1 / 10 ^ 12, ['p'])] =
          List.find? (fun ep : ℚ × List Char => decide (|v| ≥ ep.1))
          [(1 / 10 ^ 3, ['m']), (1 / 10 ^ 6, ['u']), (1 / 10 ^ 9, ['n']), (1 / 10 ^ 12, ['p'])] :=
        List.find?_cons_of_neg _ (by simp only [decide_eq_true_eq]; exact h0)
      have s4 : List.find? (fun ep : ℚ × List Char => decide (|v| ≥ ep.1))
          [(1 / 10 ^ 3, ['m']), (1 / 10 ^ 6, ['u']), (1 / 10 ^ 9, ['n']), (1 / 10 ^ 12, ['p'])] =
          List.find? (fun ep : ℚ × List Char => decide (|v| ≥ ep.1))
          [(1 / 10 ^ 6, ['u']), (1 / 10 ^ 9, ['n']), (1 / 10 ^ 12, ['p'])] :=
        List.find?_cons_of_neg _ (by simp only [decide_eq_true_eq]; exact hm3)
      have s5 : List.find? (fun ep : ℚ × List Char => decide (|v| ≥ ep.1))
          [(1 / 10 ^ 6, ['u']), (1 / 10 ^ 9, ['n']), (1 / 10 ^ 12, ['p'])] = some (1 / 10 ^ 6, ['u']) :=
        List.find?_cons_of_pos _ (by simp only [decide_eq_true_eq]; exact hm6)
      rw [s0, s1, s2, s3, s4, s5]
    have hfmt : engFormatChars v =
        rstripChar '.' (rstripChar '0' (formatF6 (v / (1 / 10 ^ 6)))) ++ ['u'] := by
      unfold engFormatChars
      rw [if_neg hv0, hfind]
    have hstr : engineering_format v =
        (⟨rstripChar '.' (rstripChar '0' (formatF6 (v / (1 / 10 ^ 6)))) ++ ['u']⟩ : String) :=
      congrArg String.mk hfmt
    have hpf : PREFIX_TO_VALUE.find? (fun cf => ((some 'u' : Option Char) == some cf.1)) =
        some ('u', 1 / 10 ^ 6) := by rfl
    refine ⟨(pyRound (v / (1 / 10 ^ 6) * 10 ^ 6) : ℚ) / 10 ^ 6 * (1 / 10 ^ 6), ?_, ?_⟩
    · rw [hstr]
      exact parse_strip_concat (v / (1 / 10 ^ 6)) 'u' (1 / 10 ^ 6) (by decide) hpf
    · exact round_scale_bound v (1 / 10 ^ 6) (by norm_num) hm6
  by_cases hm9 : 1 / 10 ^ 9 ≤ |v|
  · have hfind : ENG_THRESHOLDS.find? (fun ep => decide (|v| ≥ ep.1)) =
        some (1 / 10 ^ 9, ['n']) := by
      unfold ENG_THRESHOLDS
      have s0 : List.find? (fun ep : ℚ × List Char => decide (|v| ≥ ep.1))
          [(10 ^ 9, ['G']), (10 ^ 6, ['M']), (10 ^ 3, ['k']), (1, []), (1 / 10 ^ 3, ['m']), (1 / 10 ^ 6, ['u']), (1 / 10 ^ 9, ['n']), (1 / 10 ^ 12, ['p'])] =
          List.find? (fun ep : ℚ × List Char => decide (|v| ≥ ep.1))
          [(10 ^ 6, ['M']), (10 ^ 3, ['k']), (1, []), (1 / 10 ^ 3, ['m']), (1 / 10 ^ 6, ['u']), (1 / 10 ^ 9, ['n']), (1 / 10 ^ 12, ['p'])] :=
        List.find?_cons_of_neg _ (by simp only [decide_eq_true_eq]; exact h9)
      have s1 : List.find? (fun ep : ℚ × List Char => decide (|v| ≥ ep.1))
          [(10 ^ 6, ['M']), (10 ^ 3, ['k']), (1, []), (1 / 10 ^ 3, ['m']), (1 / 10 ^ 6, ['u']), (1 / 10 ^ 9, ['n']), (1 / 10 ^ 12, ['p'])] =
          List.find? (fun ep : ℚ × List Char => decide (|v| ≥ ep.1))
          [(10 ^ 3, ['k']), (1, []), (1 / 10 ^ 3, ['m']), (1 / 10 ^ 6, ['u']), (1 / 10 ^ 9, ['n']), (1 / 10 ^ 12, ['p'])] :=
        List.find?_cons_of_neg _ (by simp only [decide_eq_true_eq]; exact h6)
      have s2 : List.find? (fun ep : ℚ × List Char => decide (|v| ≥ ep.1))
          [(10 ^ 3, ['k']), (1, []), (1 / 10 ^ 3, ['m']), (1 / 10 ^ 6, ['u']), (1 / 10 ^ 9, ['n']), (1 / 10 ^ 12, ['p'])] =
          List.find? (fun ep : ℚ × List Char => decide (|v| ≥ ep.1))
          [(1, []), (1 / 10 ^ 3, ['m']), (1 / 10 ^ 6, ['u']), (1 / 10 ^ 9, ['n']), (1 / 10 ^ 12, ['p'])] :=
        List.find?_cons_of_neg _ (by simp only [decide_eq_true_eq]; exact h3)
      have s3 : List.find? (fun ep : ℚ × List Char => decide (|v| ≥ ep.1))
          [(1, []), (1 / 10 ^ 3, ['m']), (1 / 10 ^ 6, ['u']), (1 / 10 ^ 9, ['n']), (1 / 10 ^ 12, ['p'])] =
          List.find? (fun ep : ℚ × List Char => decide (|v| ≥ ep.1))
          [(1 / 10 ^ 3, ['m']), (1 / 10 ^ 6, ['u']), (1 / 10 ^ 9, ['n']), (1 / 10 ^ 12, ['p'])] :=
        List.find?_cons_of_neg _ (by simp only [decide_eq_true_eq]; exact h0)
      have s4 : List.find? (fun ep : ℚ × List Char => decide (|v| ≥ ep.1))
          [(1 / 10 ^ 3, ['m']), (1 / 10 ^ 6, ['u']), (1 / 10 ^ 9, ['n']), (1 / 10 ^ 12, ['p'])] =
          List.find? (fun ep : ℚ × List Char => decide (|v| ≥ ep.1))
          [(1 / 10 ^ 6, ['u']), (1 / 10 ^ 9, ['n']), (1 / 10 ^ 12, ['p'])] :=
        List.find?_cons_of_neg _ (by simp only [decide_eq_true_eq]; exact hm3)
      have s5 : List.find? (fun ep : ℚ × List Char => decide (|v| ≥ ep.1))
          [(1 / 10 ^ 6, ['u']), (1 / 10 ^ 9, ['n']), (1 / 10 ^ 12, ['p'])] =
          List.find? (fun ep : ℚ × List Char => decide (|v| ≥ ep.1))
          [(1 / 10 ^ 9, ['n']), (1 / 10 ^ 12, ['p'])] :=
        List.find?_cons_of_neg _ (by simp only [decide_eq_true_eq]; exact hm6)
      have s6 : List.find? (fun ep : ℚ × List Char => decide (|v| ≥ ep.1))
          [(1 / 10 ^ 9, ['n']), (1 / 10 ^ 12, ['p'])] = some (1 / 10 ^ 9, ['n']) :=
        List.find?_cons_of_pos _ (by simp only [decide_eq_true_eq]; exact hm9)
      rw [s0, s1, s2, s3, s4, s5, s6]
    have hfmt : engFormatChars v =
        rstripChar '.' (rstripChar '0' (formatF6 (v / (1 / 10 ^ 9)))) ++ ['n'] := by
      unfold engFormatChars
      rw [if_neg hv0, hfind]
    have hstr : engineering_format v =
        (⟨rstripChar '.' (rstripChar '0' (formatF6 (v / (1 / 10 ^ 9)))) ++ ['n']⟩ : String) :=
      congrArg String.mk hfmt
    have hpf : PREFIX_TO_VALUE.find? (fun cf => ((some 'n' : Option Char) == some cf.1)) =
        some ('n', 1 / 10 ^ 9) := by rfl
    refine ⟨(pyRound (v / (1 / 10 ^ 9) * 10 ^ 6) : ℚ) / 10 ^ 6 * (1 / 10 ^ 9), ?_, ?_⟩
    · rw [hstr]
      exact parse_strip_concat (v / (1 / 10 ^ 9)) 'n' (1 / 10 ^ 9) (by decide) hpf
    · exact round_scale_bound v (1 / 10 ^ 9) (by norm_num) hm9
  have hfind : ENG_THRESHOLDS.find? (fun ep => decide (|v| ≥ ep.1)) =
      some (1 / 10 ^ 12, ['p']) := by
    unfold ENG_THRESHOLDS
    have s0 : List.find? (fun ep : ℚ × List Char => decide (|v| ≥ ep.1))
        [(10 ^ 9, ['G']), (10 ^ 6, ['M']), (10 ^ 3, ['k']), (1, []), (1 / 10 ^ 3, ['m']), (1 / 10 ^ 6, ['u']), (1 / 10 ^ 9, ['n']), (1 / 10 ^ 12, ['p'])] =
        List.find? (fun ep : ℚ × List Char => decide (|v| ≥ ep.1))
        [(10 ^ 6, ['M']), (10 ^ 3, ['k']), (1, []), (1 / 10 ^ 3, ['m']), (1 / 10 ^ 6, ['u']), (1 / 10 ^ 9, ['n']), (1 / 10 ^ 12, ['p'])] :=
      List.find?_cons_of_neg _ (by simp only [decide_eq_true_eq]; exact h9)
    have s1 : List.find? (fun ep : ℚ × List Char => decide (|v| ≥ ep.1))
        [(10 ^ 6, ['M']), (10 ^ 3, ['k']), (1, []), (1 / 10 ^ 3, ['m']), (1 / 10 ^ 6, ['u']), (1 / 10 ^ 9, ['n']), (1 / 10 ^ 12, ['p'])] =
        List.find? (fun ep : ℚ × List Char => decide (|v| ≥ ep.1))
        [(10 ^ 3, ['k']), (1, []), (1 / 10 ^ 3, ['m']), (1 / 10 ^ 6, ['u']), (1 / 10 ^ 9, ['n']), (1 / 10 ^ 12, ['p'])] :=
      List.find?_cons_of_neg _ (by simp only [decide_eq_true_eq]; exact h6)
    have s2 : List.find? (fun ep : ℚ × List Char => decide (|v| ≥ ep.1))
        [(10 ^ 3, ['k']), (1, []), (1 / 10 ^ 3, ['m']), (1 / 10 ^ 6, ['u']), (1 / 10 ^ 9, ['n']), (1 / 10 ^ 12, ['p'])] =
        List.find? (fun ep : ℚ × List Char => decide (|v| ≥ ep.1))
        [(1, []), (1 / 10 ^ 3, ['m']), (1 / 10 ^ 6, ['u']), (1 / 10 ^ 9, ['n']), (1 / 10 ^ 12, ['p'])] :=
      List.find?_cons_of_neg _ (by simp only [decide_eq_true_eq]; exact h3)
    have s3 : List.find? (fun ep : ℚ × List Char => decide (|v| ≥ ep.1))
        [(1, []), (1 / 10 ^ 3, ['m']), (1 / 10 ^ 6, ['u']), (1 / 10 ^ 9, ['n']), (1 / 10 ^ 12, ['p'])] =
        List.find? (fun ep : ℚ × List Char => decide (|v| ≥ ep.1))
        [(1 / 10 ^ 3, ['m']), (1 / 10 ^ 6, ['u']), (1 / 10 ^ 9, ['n']), (1 / 10 ^ 12, ['p'])] :=
      List.find?_cons_of_neg _ (by simp only [decide_eq_true_eq]; exact h0)
    have s4 : List.find? (fun ep : ℚ × List Char => decide (|v| ≥ ep.1))
        [(1 / 10 ^ 3, ['m']), (1 / 10 ^ 6, ['u']), (1 / 10 ^ 9, ['n']), (1 / 10 ^ 12, ['p'])] =
        List.find? (fun ep : ℚ × List Char => decide (|v| ≥ ep.1))
        [(1 / 10 ^ 6, ['u']), (1 / 10 ^ 9, ['n']), (1 / 10 ^ 12, ['p'])] :=
      List.find?_cons_of_neg _ (by simp only [decide_eq_true_eq]; exact hm3)
    have s5 : List.find? (fun ep : ℚ × List Char => decide (|v| ≥ ep.1))
        [(1 / 10 ^ 6, ['u']), (1 / 10 ^ 9, ['n']), (1 / 10 ^ 12, ['p'])] =
        List.find? (fun ep : ℚ × List Char => decide (|v| ≥ ep.1))
        [(1 / 10 ^ 9, ['n']), (1 / 10 ^ 12, ['p'])] :=
      List.find?_cons_of_neg _ (by simp only [decide_eq_true_eq]; exact hm6)
    have s6 : List.find? (fun ep : ℚ × List Char => decide (|v| ≥ ep.1))
        [(1 / 10 ^ 9, ['n']), (1 / 10 ^ 12, ['p'])] =
        List.find? (fun ep : ℚ × List Char => decide (|v| ≥ ep.1))
        [(1 / 10 ^ 12, ['p'])] :=
      List.find?_cons_of_neg _ (by simp only [decide_eq_true_eq]; exact hm9)
    have s7 : List.find? (fun ep : ℚ × List Char => decide (|v| ≥ ep.1))
        [(1 / 10 ^ 12, ['p'])] = some (1 / 10 ^ 12, ['p']) :=
      List.find?_cons_of_pos _ (by simp only [decide_eq_true_eq]; exact hv)
    rw [s0, s1, s2, s3, s4, s5, s6, s7]
  have hfmt : engFormatChars v =
      rstripChar '.' (rstripChar '0' (formatF6 (v / (1 / 10 ^ 12)))) ++ ['p'] := by
    unfold engFormatChars
    rw [if_neg hv0, hfind]
  have hstr : engineering_format v =
      (⟨rstripChar '.' (rstripChar '0' (formatF6 (v / (1 / 10 ^ 12)))) ++ ['p']⟩ : String) :=
    congrArg String.mk hfmt
  have hpf : PREFIX_TO_VALUE.find? (fun cf => ((some 'p' : Option Char) == some cf.1)) =
      some ('p', 1 / 10 ^ 12) := by rfl
  refine ⟨(pyRound (v / (1 / 10 ^ 12) * 10 ^ 6) : ℚ) / 10 ^ 6 * (1 / 10 ^ 12), ?_, ?_⟩
  · rw [hstr]
    exact parse_strip_concat (v / (1 / 10 ^ 12)) 'p' (1 / 10 ^ 12) (by decide) hpf
  · exact round_scale_bound v (1 / 10 ^ 12) (by norm_num) hv

theorem pyRound_intCast (n : ℤ) : pyRound (n : ℚ) = n := by
  rw [pyRound_eq, Int.floor_intCast]
  rw [if_pos (by norm_num : ((n:ℚ) - (n:ℚ)) < 1 / 2)]

theorem pyRound_eval_floor {q : ℚ} {f : ℤ} (hf : ⌊q⌋ = f) (hr : q - f < 1 / 2) :
    pyRound q = f := by
  rw [pyRound_eq, hf, if_pos hr]

theorem formatE3_eval (v : ℚ) (e0 : ℤ) (n0 : ℤ)
    (he0 : decExp |v| = e0)
    (hn0 : pyRound (|v| / (10:ℚ) ^ e0 * 10 ^ 3) = n0)
    (hlt : ¬ 10 ^ 4 ≤ n0) :
    formatE3 v = (if v < 0 then ['-'] else []) ++ natChars (n0.natAbs / 10 ^ 3) ++
      '.' :: (padDigits 3 (natDigitsM (n0.natAbs % 10 ^ 3))).map digitChar ++
      'e' :: expChars e0 := by
  unfold formatE3
  simp only [he0, hn0]
  rw [if_neg hlt, if_neg hlt]

theorem eng_example_zero : engineering_format (0:ℚ) = "0" := rfl

theorem eng_example_a : engineering_format (5004 / 10 ^ 4 : ℚ) = "500.4m" := by
  have hv0 : (5004 / 10 ^ 4 : ℚ) ≠ 0 := by norm_num
  have habs : |(5004 / 10 ^ 4 : ℚ)| = 5004 / 10 ^ 4 := abs_of_pos (by norm_num)
  have hfind : ENG_THRESHOLDS.find? (fun ep => decide (|(5004 / 10 ^ 4)| ≥ ep.1)) =
      some (1 / 10 ^ 3, ['m']) := by
    unfold ENG_THRESHOLDS
    have s0 : List.find? (fun ep : ℚ × List Char => decide (|(5004 / 10 ^ 4)| ≥ ep.1))
        [(10 ^ 9, ['G']), (10 ^ 6, ['M']), (10 ^ 3, ['k']), (1, []), (1 / 10 ^ 3, ['m']), (1 / 10 ^ 6, ['u']), (1 / 10 ^ 9, ['n']), (1 / 10 ^ 12, ['p'])] =
        List.find? (fun ep : ℚ × List Char => decide (|(5004 / 10 ^ 4)| ≥ ep.1))
        [(10 ^ 6, ['M']), (10 ^ 3, ['k']), (1, []), (1 / 10 ^ 3, ['m']), (1 / 10 ^ 6, ['u']), (1 / 10 ^ 9, ['n']), (1 / 10 ^ 12, ['p'])] :=
      List.find?_cons_of_neg _ (by simp only [decide_eq_true_eq, habs]; norm_num)
    have s1 : List.find? (fun ep : ℚ × List Char => decide (|(5004 / 10 ^ 4)| ≥ ep.1))
        [(10 ^ 6, ['M']), (10 ^ 3, ['k']), (1, []), (1 / 10 ^ 3, ['m']), (1 / 10 ^ 6, ['u']), (1 / 10 ^ 9, ['n']), (1 / 10 ^ 12, ['p'])] =
        List.find? (fun ep : ℚ × List Char => decide (|(5004 / 10 ^ 4)| ≥ ep.1))
        [(10 ^ 3, ['k']), (1, []), (1 / 10 ^ 3, ['m']), (1 / 10 ^ 6, ['u']), (1 / 10 ^ 9, ['n']), (1 / 10 ^ 12, ['p'])] :=
      List.find?_cons_of_neg _ (by simp only [decide_eq_true_eq, habs]; norm_num)
    have s2 : List.find? (fun ep : ℚ × List Char => decide (|(5004 / 10 ^ 4)| ≥ ep.1))
        [(10 ^ 3, ['k']), (1, []), (1 / 10 ^ 3, ['m']), (1 / 10 ^ 6, ['u']), (1 / 10 ^ 9, ['n']), (1 / 10 ^ 12, ['p'])] =
        List.find? (fun ep : ℚ × List Char => decide (|(5004 / 10 ^ 4)| ≥ ep.1))
        [(1, []), (1 / 10 ^ 3, ['m']), (1 / 10 ^ 6, ['u']), (1 / 10 ^ 9, ['n']), (1 / 10 ^ 12, ['p'])] :=
      List.find?_cons_of_neg _ (by simp only [decide_eq_true_eq, habs]; norm_num)
    have s3 : List.find? (fun ep : ℚ × List Char => decide (|(5004 / 10 ^ 4)| ≥ ep.1))
        [(1, []), (1 / 10 ^ 3, ['m']), (1 / 10 ^ 6, ['u']), (1 / 10 ^ 9, ['n']), (1 / 10 ^ 12, ['p'])] =
        List.find? (fun ep : ℚ × List Char => decide (|(5004 / 10 ^ 4)| ≥ ep.1))
        [(1 / 10 ^ 3, ['m']), (1 / 10 ^ 6, ['u']), (1 / 10 ^ 9, ['n']), (1 / 10 ^ 12, ['p'])] :=
      List.find?_cons_of_neg _ (by simp only [decide_eq_true_eq, habs]; norm_num)
    have s4 : List.find? (fun ep : ℚ × List Char => decide (|(5004 / 10 ^ 4)| ≥ ep.1))
        [(1 / 10 ^ 3, ['m']), (1 / 10 ^ 6, ['u']), (1 / 10 ^ 9, ['n']), (1 / 10 ^ 12, ['p'])] = some (1 / 10 ^ 3, ['m']) :=
      List.find?_cons_of_pos _ (by simp only [decide_eq_true_eq, habs]; norm_num)
    rw [s0, s1, s2, s3, s4]
  have harg : (5004 / 10 ^ 4 : ℚ) / (1 / 10 ^ 3) * 10 ^ 6 = ((500400000:ℤ):ℚ) := by norm_num
  have hround : pyRound ((5004 / 10 ^ 4 : ℚ) / (1 / 10 ^ 3) * 10 ^ 6) = 500400000 := by
    rw [harg, pyRound_intCast]
  have hf6 : formatF6 ((5004 / 10 ^ 4 : ℚ) / (1 / 10 ^ 3)) =
      ['5','0','0','.','4','0','0','0','0','0'] := by
    rw [formatF6_decomp, hround]
    rw [if_neg (by norm_num : ¬ ((5004 / 10 ^ 4 : ℚ) / (1 / 10 ^ 3) < 0))]
    decide
  have hstrip : rstripChar '.' (rstripChar '0' ['5','0','0','.','4','0','0','0','0','0']) =
      ['5','0','0','.','4'] := by decide
  have hchars : engFormatChars (5004 / 10 ^ 4 : ℚ) = ['5','0','0','.','4','m'] := by
    unfold engFormatChars
    rw [if_neg hv0, hfind]
    show rstripChar '.' (rstripChar '0' (formatF6 ((5004 / 10 ^ 4 : ℚ) / (1 / 10 ^ 3)))) ++ ['m'] =
      ['5','0','0','.','4','m']
    rw [hf6, hstrip]
    decide
  calc engineering_format (5004 / 10 ^ 4 : ℚ) = (⟨engFormatChars (5004 / 10 ^ 4 : ℚ)⟩ : String) := rfl
    _ = (⟨['5','0','0','.','4','m']⟩ : String) := congrArg String.mk hchars
    _ = "500.4m" := rfl


theorem eng_example_b : engineering_format (1 / 10 ^ 13 : ℚ) = "1.000e-13" := by
  have hv0 : (1 / 10 ^ 13 : ℚ) ≠ 0 := by norm_num
  have habs : |(1 / 10 ^ 13 : ℚ)| = 1 / 10 ^ 13 := abs_of_pos (by norm_num)
  have hfind : ENG_THRESHOLDS.find? (fun ep => decide (|(1 / 10 ^ 13)| ≥ ep.1)) =
      none := by
    unfold ENG_THRESHOLDS
    have s0 : List.find? (fun ep : ℚ × List Char => decide (|(1 / 10 ^ 13)| ≥ ep.1))
        [(10 ^ 9, ['G']), (10 ^ 6, ['M']), (10 ^ 3, ['k']), (1, []), (1 / 10 ^ 3, ['m']), (1 / 10 ^ 6, ['u']), (1 / 10 ^ 9, ['n']), (1 / 10 ^ 12, ['p'])] =
        List.find? (fun ep : ℚ × List Char => decide (|(1 / 10 ^ 13)| ≥ ep.1))
        [(10 ^ 6, ['M']), (10 ^ 3, ['k']), (1, []), (1 / 10 ^ 3, ['m']), (1 / 10 ^ 6, ['u']), (1 / 10 ^ 9, ['n']), (1 / 10 ^ 12, ['p'])] :=
      List.find?_cons_of_neg _ (by simp only [decide_eq_true_eq, habs]; norm_num)
    have s1 : List.find? (fun ep : ℚ × List Char => decide (|(1 / 10 ^ 13)| ≥ ep.1))
        [(10 ^ 6, ['M']), (10 ^ 3, ['k']), (1, []), (1 / 10 ^ 3, ['m']), (1 / 10 ^ 6, ['u']), (1 / 10 ^ 9, ['n']), (1 / 10 ^ 12, ['p'])] =
        List.find? (fun ep : ℚ × List Char => decide (|(1 / 10 ^ 13)| ≥ ep.1))
        [(10 ^ 3, ['k']), (1, []), (1 / 10 ^ 3, ['m']), (1 / 10 ^ 6, ['u']), (1 / 10 ^ 9, ['n']), (1 / 10 ^ 12, ['p'])] :=
      List.find?_cons_of_neg _ (by simp only [decide_eq_true_eq, habs]; norm_num)
    have s2 : List.find? (fun ep : ℚ × List Char => decide (|(1 / 10 ^ 13)| ≥ ep.1))
        [(10 ^ 3, ['k']), (1, []), (1 / 10 ^ 3, ['m']), (1 / 10 ^ 6, ['u']), (1 / 10 ^ 9, ['n']), (1 / 10 ^ 12, ['p'])] =
        List.find? (fun ep : ℚ × List Char => decide (|(1 / 10 ^ 13)| ≥ ep.1))
        [(1, []), (1 / 10 ^ 3, ['m']), (1 / 10 ^ 6, ['u']), (1 / 10 ^ 9, ['n']), (1 / 10 ^ 12, ['p'])] :=
      List.find?_cons_of_neg _ (by simp only [decide_eq_true_eq, habs]; norm_num)
    have s3 : List.find? (fun ep : ℚ × List Char => decide (|(1 / 10 ^ 13)| ≥ ep.1))
        [(1, []), (1 / 10 ^ 3, ['m']), (1 / 10 ^ 6, ['u']), (1 / 10 ^ 9, ['n']), (1 / 10 ^ 12, ['p'])] =
        List.find? (fun ep : ℚ × List Char => decide (|(1 / 10 ^ 13)| ≥ ep.1))
        [(1 / 10 ^ 3, ['m']), (1 / 10 ^ 6, ['u']), (1 / 10 ^ 9, ['n']), (1 / 10 ^ 12, ['p'])] :=
      List.find?_cons_of_neg _ (by simp only [decide_eq_true_eq, habs]; norm_num)
    have s4 : List.find? (fun ep : ℚ × List Char => decide (|(1 / 10 ^ 13)| ≥ ep.1))
        [(1 / 10 ^ 3, ['m']), (1 / 10 ^ 6, ['u']), (1 / 10 ^ 9, ['n']), (1 / 10 ^ 12, ['p'])] =
        List.find? (fun ep : ℚ × List Char => decide (|(1 / 10 ^ 13)| ≥ ep.1))
        [(1 / 10 ^ 6, ['u']), (1 / 10 ^ 9, ['n']), (1 / 10 ^ 12, ['p'])] :=
      List.find?_cons_of_neg _ (by simp only [decide_eq_true_eq, habs]; norm_num)
    have s5 : List.find? (fun ep : ℚ × List Char => decide (|(1 / 10 ^ 13)| ≥ ep.1))
        [(1 / 10 ^ 6, ['u']), (1 / 10 ^ 9, ['n']), (1 / 10 ^ 12, ['p'])] =
        List.find? (fun ep : ℚ × List Char => decide (|(1 / 10 ^ 13)| ≥ ep.1))
        [(1 / 10 ^ 9, ['n']), (1 / 10 ^ 12, ['p'])] :=
      List.find?_cons_of_neg _ (by simp only [decide_eq_true_eq, habs]; norm_num)
    have s6 : List.find? (fun ep : ℚ × List Char => decide (|(1 / 10 ^ 13)| ≥ ep.1))
        [(1 / 10 ^ 9, ['n']), (1 / 10 ^ 12, ['p'])] =
        List.find? (fun ep : ℚ × List Char => decide (|(1 / 10 ^ 13)| ≥ ep.1))
        [(1 / 10 ^ 12, ['p'])] :=
      List.find?_cons_of_neg _ (by simp only [decide_eq_true_eq, habs]; norm_num)
    have s7 : List.find? (fun ep : ℚ × List Char => decide (|(1 / 10 ^ 13)| ≥ ep.1))
        [(1 / 10 ^ 12, ['p'])] =
        List.find? (fun ep : ℚ × List Char => decide (|(1 / 10 ^ 13)| ≥ ep.1))
        [] :=
      List.find?_cons_of_neg _ (by simp only [decide_eq_true_eq, habs]; norm_num)
    rw [s0, s1, s2, s3, s4, s5, s6, s7, List.find?_nil]
  have he0 : decExp |(1 / 10 ^ 13 : ℚ)| = -13 := by
    unfold decExp
    rw [habs]
    exact int_log_eq (by norm_num) (by norm_num) (by norm_num)
  have hq : |(1 / 10 ^ 13 : ℚ)| / (10:ℚ) ^ (-13:ℤ) * 10 ^ 3 = ((1000:ℤ):ℚ) := by
    rw [habs]
    norm_num
  have hn0 : pyRound (|(1 / 10 ^ 13 : ℚ)| / (10:ℚ) ^ (-13:ℤ) * 10 ^ 3) = 1000 := by
    rw [hq, pyRound_intCast]
  have hform : formatE3 (1 / 10 ^ 13 : ℚ) = ['1','.','0','0','0','e','-','1','3'] := by
    rw [formatE3_eval (1 / 10 ^ 13 : ℚ) (-13) 1000 he0 hn0 (by decide)]
    rw [if_neg (by norm_num : ¬ ((1 / 10 ^ 13 : ℚ) < 0))]
    decide
  have hchars : engFormatChars (1 / 10 ^ 13 : ℚ) = ['1','.','0','0','0','e','-','1','3'] := by
    unfold engFormatChars
    rw [if_neg hv0, hfind]
    show formatE3 (1 / 10 ^ 13 : ℚ) = ['1','.','0','0','0','e','-','1','3']
    exact hform
  calc engineering_format (1 / 10 ^ 13 : ℚ) = (⟨engFormatChars (1 / 10 ^ 13 : ℚ)⟩ : String) := rfl
    _ = (⟨['1','.','0','0','0','e','-','1','3']⟩ : String) := congrArg String.mk hchars
    _ = "1.000e-13" := rfl


theorem parse_e13 : parse_engineering_format "1.000e-13" = some (1 / 10 ^ 13 : ℚ) := by
  have ht1 : takeDigits ['1','.','0','0','0','e','-','1','3'] 0 0 =
      (1, 1, ['.','0','0','0','e','-','1','3']) := by decide
  have ht2 : takeDigits ['0','0','0','e','-','1','3'] 0 0 = (0, 3, ['e','-','1','3']) := by
    decide
  have ht3 : takeDigits ['1','3'] 0 0 = (13, 2, []) := by decide
  have hstr : stripChars (("1.000e-13" : String).data) =
      ['1','.','0','0','0','e','-','1','3'] := by decide
  have hfp : PREFIX_TO_VALUE.find?
      (fun cf => ((['1','.','0','0','0','e','-','1','3'].getLast?) == some cf.1)) = none := by
    decide
  simp only [parse_engineering_format, hstr]
  rw [if_neg (by decide : ¬ (['1','.','0','0','0','e','-','1','3'].isEmpty = true))]
  rw [hfp]
  show parseFloatChars ['1','.','0','0','0','e','-','1','3'] = some (1 / 10 ^ 13 : ℚ)
  unfold parseFloatChars
  simp only [(by decide : ('1':Char) ≠ '-'), (by decide : ('1':Char) ≠ '+'), ite_false,
    if_false, ht1, if_pos rfl, ite_true, ht2, ht3]
  norm_num

theorem eng_format_small : engineering_format (10004 / 10 ^ 17 : ℚ) = "1.000e-13" := by
  have hv0 : (10004 / 10 ^ 17 : ℚ) ≠ 0 := by norm_num
  have habs : |(10004 / 10 ^ 17 : ℚ)| = 10004 / 10 ^ 17 := abs_of_pos (by norm_num)
  have hfind : ENG_THRESHOLDS.find? (fun ep => decide (|(10004 / 10 ^ 17)| ≥ ep.1)) =
      none := by
    unfold ENG_THRESHOLDS
    have s0 : List.find? (fun ep : ℚ × List Char => decide (|(10004 / 10 ^ 17)| ≥ ep.1))
        [(10 ^ 9, ['G']), (10 ^ 6, ['M']), (10 ^ 3, ['k']), (1, []), (1 / 10 ^ 3, ['m']), (1 / 10 ^ 6, ['u']), (1 / 10 ^ 9, ['n']), (1 / 10 ^ 12, ['p'])] =
        List.find? (fun ep : ℚ × List Char => decide (|(10004 / 10 ^ 17)| ≥ ep.1))
        [(10 ^ 6, ['M']), (10 ^ 3, ['k']), (1, []), (1 / 10 ^ 3, ['m']), (1 / 10 ^ 6, ['u']), (1 / 10 ^ 9, ['n']), (1 / 10 ^ 12, ['p'])] :=
      List.find?_cons_of_neg _ (by simp only [decide_eq_true_eq, habs]; norm_num)
    have s1 : List.find? (fun ep : ℚ × List Char => decide (|(10004 / 10 ^ 17)| ≥ ep.1))
        [(10 ^ 6, ['M']), (10 ^ 3, ['k']), (1, []), (1 / 10 ^ 3, ['m']), (1 / 10 ^ 6, ['u']), (1 / 10 ^ 9, ['n']), (1 / 10 ^ 12, ['p'])] =
        List.find? (fun ep : ℚ × List Char => decide (|(10004 / 10 ^ 17)| ≥ ep.1))
        [(10 ^ 3, ['k']), (1, []), (1 / 10 ^ 3, ['m']), (1 / 10 ^ 6, ['u']), (1 / 10 ^ 9, ['n']), (1 / 10 ^ 12, ['p'])] :=
      List.find?_cons_of_neg _ (by simp only [decide_eq_true_eq, habs]; norm_num)
    have s2 : List.find? (fun ep : ℚ × List Char => decide (|(10004 / 10 ^ 17)| ≥ ep.1))
        [(10 ^ 3, ['k']), (1, []), (1 / 10 ^ 3, ['m']), (1 / 10 ^ 6, ['u']), (1 / 10 ^ 9, ['n']), (1 / 10 ^ 12, ['p'])] =
        List.find? (fun ep : ℚ × List Char => decide (|(10004 / 10 ^ 17)| ≥ ep.1))
        [(1, []), (1 / 10 ^ 3, ['m']), (1 / 10 ^ 6, ['u']), (1 / 10 ^ 9, ['n']), (1 / 10 ^ 12, ['p'])] :=
      List.find?_cons_of_neg _ (by simp only [decide_eq_true_eq, habs]; norm_num)
    have s3 : List.find? (fun ep : ℚ × List Char => decide (|(10004 / 10 ^ 17)| ≥ ep.1))
        [(1, []), (1 / 10 ^ 3, ['m']), (1 / 10 ^ 6, ['u']), (1 / 10 ^ 9, ['n']), (1 / 10 ^ 12, ['p'])] =
        List.find? (fun ep : ℚ × List Char => decide (|(10004 / 10 ^ 17)| ≥ ep.1))
        [(1 / 10 ^ 3, ['m']), (1 / 10 ^ 6, ['u']), (1 / 10 ^ 9, ['n']), (1 / 10 ^ 12, ['p'])] :=
      List.find?_cons_of_neg _ (by simp only [decide_eq_true_eq, habs]; norm_num)
    have s4 : List.find? (fun ep : ℚ × List Char => decide (|(10004 / 10 ^ 17)| ≥ ep.1))
        [(1 / 10 ^ 3, ['m']), (1 / 10 ^ 6, ['u']), (1 / 10 ^ 9, ['n']), (1 / 10 ^ 12, ['p'])] =
        List.find? (fun ep : ℚ × List Char => decide (|(10004 / 10 ^ 17)| ≥ ep.1))
        [(1 / 10 ^ 6, ['u']), (1 / 10 ^ 9, ['n']), (1 / 10 ^ 12, ['p'])] :=
      List.find?_cons_of_neg _ (by simp only [decide_eq_true_eq, habs]; norm_num)
    have s5 : List.find? (fun ep : ℚ × List Char => decide (|(10004 / 10 ^ 17)| ≥ ep.1))
        [(1 / 10 ^ 6, ['u']), (1 / 10 ^ 9, ['n']), (1 / 10 ^ 12, ['p'])] =
        List.find? (fun ep : ℚ × List Char => decide (|(10004 / 10 ^ 17)| ≥ ep.1))
        [(1 / 10 ^ 9, ['n']), (1 / 10 ^ 12, ['p'])] :=
      List.find?_cons_of_neg _ (by simp only [decide_eq_true_eq, habs]; norm_num)
    have s6 : List.find? (fun ep : ℚ × List Char => decide (|(10004 / 10 ^ 17)| ≥ ep.1))
        [(1 / 10 ^ 9, ['n']), (1 / 10 ^ 12, ['p'])] =
        List.find? (fun ep : ℚ × List Char => decide (|(10004 / 10 ^ 17)| ≥ ep.1))
        [(1 / 10 ^ 12, ['p'])] :=
      List.find?_cons_of_neg _ (by simp only [decide_eq_true_eq, habs]; norm_num)
    have s7 : List.find? (fun ep : ℚ × List Char => decide (|(10004 / 10 ^ 17)| ≥ ep.1))
        [(1 / 10 ^ 12, ['p'])] =
        List.find? (fun ep : ℚ × List Char => decide (|(10004 / 10 ^ 17)| ≥ ep.1))
        [] :=
      List.find?_cons_of_neg _ (by simp only [decide_eq_true_eq, habs]; norm_num)
    rw [s0, s1, s2, s3, s4, s5, s6, s7, List.find?_nil]
  have he0 : decExp |(10004 / 10 ^ 17 : ℚ)| = -13 := by
    unfold decExp
    rw [habs]
    exact int_log_eq (by norm_num) (by norm_num) (by norm_num)
  have hq : |(10004 / 10 ^ 17 : ℚ)| / (10:ℚ) ^ (-13:ℤ) * 10 ^ 3 = (10004 / 10 : ℚ) := by
    rw [habs]
    norm_num
  have hn0 : pyRound (|(10004 / 10 ^ 17 : ℚ)| / (10:ℚ) ^ (-13:ℤ) * 10 ^ 3) = 1000 := by
    rw [hq]
    exact pyRound_eval_floor (by norm_num [Int.floor_eq_iff]) (by norm_num)
  have hform : formatE3 (10004 / 10 ^ 17 : ℚ) = ['1','.','0','0','0','e','-','1','3'] := by
    rw [formatE3_eval (10004 / 10 ^ 17 : ℚ) (-13) 1000 he0 hn0 (by decide)]
    rw [if_neg (by norm_num : ¬ ((10004 / 10 ^ 17 : ℚ) < 0))]
    decide
  have hchars : engFormatChars (10004 / 10 ^ 17 : ℚ) = ['1','.','0','0','0','e','-','1','3'] := by
    unfold engFormatChars
    rw [if_neg hv0, hfind]
    show formatE3 (10004 / 10 ^ 17 : ℚ) = ['1','.','0','0','0','e','-','1','3']
    exact hform
  calc engineering_format (10004 / 10 ^ 17 : ℚ) = (⟨engFormatChars (10004 / 10 ^ 17 : ℚ)⟩ : String) := rfl
    _ = (⟨['1','.','0','0','0','e','-','1','3']⟩ : String) := congrArg String.mk hchars
    _ = "1.000e-13" := rfl


/-- C3 (amended): for every value of magnitude at least `1e-12` — the smallest
engineering threshold — the parse of the engineering format is within the
relative precision of the six fractional digits the formatter writes
(`|w - v| ≤ |v| / 2000000`), and the three examples of the specification hold:
`format 0.5004 = "500.4m"`, `format 1e-13 = "1.000e-13"`, `format 0 = "0"`.
Below `1e-12` the scientific fallback keeps only three fractional digits, so
the stated precision fails there (see the counterexample). -/
theorem engineering_format_roundtrip :
    (∀ v : ℚ, 1 / 10 ^ 12 ≤ |v| →
      ∃ w, parse_engineering_format (engineering_format v) = some w ∧
        |w - v| ≤ |v| / 2000000) ∧
    engineering_format (5004 / 10 ^ 4 : ℚ) = "500.4m" ∧
    engineering_format (1 / 10 ^ 13 : ℚ) = "1.000e-13" ∧
    engineering_format (0 : ℚ) = "0" :=
  ⟨eng_roundtrip, eng_example_a, eng_example_b, eng_example_zero⟩

/-- C3 counterexample: `v = 1.0004e-13` formats as `"1.000e-13"` (the
scientific fallback has only three fractional digits), which parses back to
`1e-13`; the error `4e-17` exceeds the six-fractional-digit precision
`|v| / 2000000 ≈ 5e-20`, so the unrestricted round-trip claim fails. -/
theorem engineering_format_roundtrip_counterexample :
    parse_engineering_format (engineering_format (10004 / 10 ^ 17 : ℚ)) =
      some (1 / 10 ^ 13 : ℚ) ∧
    ¬ |(1 / 10 ^ 13 : ℚ) - 10004 / 10 ^ 17| ≤ |(10004 / 10 ^ 17 : ℚ)| / 2000000 := by
  constructor
  · rw [eng_format_small]
    exact parse_e13
  · have h1 : |(1 / 10 ^ 13 : ℚ) - 10004 / 10 ^ 17| = 4 / 10 ^ 17 := by
      rw [show (1 / 10 ^ 13 : ℚ) - 10004 / 10 ^ 17 = -(4 / 10 ^ 17) from by norm_num]
      rw [abs_neg, abs_of_pos (by norm_num)]
    have h2 : |(10004 / 10 ^ 17 : ℚ)| = 10004 / 10 ^ 17 := abs_of_pos (by norm_num)
    rw [h1, h2]
    norm_num

/-- Witness for C3: the round-trip theorem applied at `v = 1/2`. -/
theorem engineering_format_roundtrip_witness :
    1 / 10 ^ 12 ≤ |(1 / 2 : ℚ)| ∧
    ∃ w, parse_engineering_format (engineering_format (1 / 2 : ℚ)) = some w ∧
      |w - 1 / 2| ≤ |(1 / 2 : ℚ)| / 2000000 :=
  ⟨by rw [abs_of_pos (by norm_num : (0:ℚ) < 1 / 2)]; norm_num,
    engineering_format_roundtrip.1 (1 / 2)
      (by rw [abs_of_pos (by norm_num : (0:ℚ) < 1 / 2)]; norm_num)⟩
